import Mathlib

/-!
# GPU_course: host code of `jump_flood` and of `scalar_prod`

A shallow embedding of

* `jump_flood/gpu_jump_flood.cpp` (function `main`: buffer allocation, seed and colour
  generation, the colour-map fill loop, the seed placement loop, the conversion to
  8-bit colours and the OpenCL call sequence that follows),
* `scalar_prod/cpu_scalar_prod.hpp` (`cpu_scalar_prod_naive`, `cpu_scalar_prod_parallel`), and
* `scalar_prod/gpu_scalar_prod.cpp` (the lambdas `new_size` and `global` and the reduction
  loop of `main`).

Conventions of the embedding.

* `std::size_t` and `cl_uint` values are natural numbers, reduced modulo `2^64` and `2^32`
  where the code computes or converts them.
* `int` values are mathematical integers; every `int` operation that could overflow goes
  through `int_checked`, which faults when the result leaves the 32-bit range (signed
  overflow is undefined behaviour in C++).
* `std::vector` is a `List`; `operator[]` outside the vector faults.
* A run is a value of `Except fault _`: it either produces its result or stops at the first
  fault.
* `float`/`double` values are represented by the rational number they denote. The host code
  of `jump_flood` only copies channel values and multiplies them by `255.0f`; the products are
  taken exactly, which agrees with binary32 on the channel values `0` and `1` that the
  theorems evaluate. The dot products are summed in exact arithmetic.
* The Mersenne engine and the distributions are external: the values they return are
  parameters (`rnd_color`, `rnd_point`).
-/

/-- Ways in which a run of the C++ code stops without a result. -/
inductive fault where
  | length_error
  | undefined_behaviour
  deriving DecidableEq, Repr

/-- Largest value of a 32-bit `int`. -/
def INT_MAX : Int := 2147483647

/-- Smallest value of a 32-bit `int`. -/
def INT_MIN : Int := -2147483648

/-- Result of an `int` operation whose mathematical value is `v`: signed overflow is
undefined behaviour. -/
def int_checked (v : Int) : Except fault Int :=
  if INT_MIN ≤ v ∧ v ≤ INT_MAX then .ok v else .error .undefined_behaviour

/-- Element `i` of a buffer, when there is one. -/
def cell {α : Type} (buf : List α) (i : Int) : Option α :=
  if 0 ≤ i then buf[i.toNat]? else none

/-- Read `buf[i]`: outside the buffer the behaviour is undefined. -/
def load {α : Type} (buf : List α) (i : Int) : Except fault α :=
  match cell buf i with
  | some v => .ok v
  | none => .error .undefined_behaviour

/-- Assignment `buf[i].field = ...`, given as the function `f` that updates the record:
outside the buffer the behaviour is undefined. -/
def store {α : Type} (buf : List α) (i : Int) (f : α → α) : Except fault (List α) :=
  match cell buf i with
  | some v => .ok (buf.set i.toNat (f v))
  | none => .error .undefined_behaviour

/-- Constructor `std::vector<T> v(n)` with an `int` argument: `n` value-initialised
elements; a negative `n` converts to a size above `max_size()` and the constructor throws
`std::length_error`. -/
def vector_alloc {α : Type} (n : Int) (zero : α) : Except fault (List α) :=
  if n < 0 then .error .length_error else .ok (List.replicate n.toNat zero)

/-- Loop `for (int i = 0; i < n; i++) body(i)` over a state: `for_loop body n s` runs the
iterations `0, 1, ..., n-1` in this order and stops at the first fault. -/
def for_loop {σ : Type} (body : Nat → σ → Except fault σ) : Nat → σ → Except fault σ
  | 0, s => .ok s
  | k + 1, s => for_loop body k s >>= body k

namespace jump_flood

/-- Record `struct rawcolor { unsigned char r, g, b, a; }`. -/
structure rawcolor where
  r : Nat
  g : Nat
  b : Nat
  a : Nat
  deriving DecidableEq, Repr

/-- Record `struct color { float r, g, b, a; }`. -/
structure color where
  r : ℚ
  g : ℚ
  b : ℚ
  a : ℚ
  deriving DecidableEq, Repr

/-- Record `struct point { unsigned int seed; int x, y; }`. -/
structure point where
  seed : Nat
  x : Int
  y : Int
  deriving DecidableEq, Repr

/-- Conversion `(unsigned char)v` of a float: truncation toward zero (reduced to 8 bits). -/
def to_uchar (v : ℚ) : Nat :=
  (Int.tdiv v.num v.den % 256).toNat

/-- Lambda `gen_color`: three draws of `dist` for `r`, `g`, `b`, and `a = 1.0f`. -/
def gen_color (d : ℚ × ℚ × ℚ) : color :=
  { r := d.1, g := d.2.1, b := d.2.2, a := 1 }

/-- Call `generate(seed_colors.begin(), seed_colors.end(), gen_color)` on `n` elements:
element `k` is the result of call number `k`, whose three draws are `rnd_color k`. -/
def generate_colors (rnd_color : Nat → ℚ × ℚ × ℚ) (n : Nat) : List color :=
  (List.range n).map (fun k => gen_color (rnd_color k))

/-- One call of the lambda `gen_seed`. `i` is the value of its `static int i` before the
call, `dx` and `dy` are the values `dist_w(mersenne_engine)` and `dist_h(mersenne_engine)`
return. The result is the point and the new value of `i`; `seed = ++i` converts the
incremented `int` to `unsigned int`. -/
def gen_seed (i : Int) (dx dy : Int) : point × Int :=
  ({ seed := ((i + 1) % 4294967296).toNat, x := dx, y := dy }, i + 1)

/-- Call `generate(seeds.begin(), seeds.end(), gen_seed)`: the points produced by the first
`n` calls of `gen_seed`, in order, with the value of the static counter after them. The
counter starts at `0` (static storage). `rnd_point k` are the draws of call number `k`. -/
def generate_seeds (rnd_point : Nat → Int × Int) : Nat → List point × Int
  | 0 => ([], 0)
  | k + 1 =>
    let prev := generate_seeds rnd_point k
    let next := gen_seed prev.2 (rnd_point k).1 (rnd_point k).2
    (prev.1 ++ [next.1], next.2)

/-- Index expression `(x*w)+y` of the host, in `int` arithmetic. -/
def cell_index (w x y : Int) : Except fault Int :=
  int_checked (x * w) >>= fun xw => int_checked (xw + y)

/-- Body of the inner fill loop (lines 78-81) for `row_i`, `col_i`. -/
def fill_cell (w : Int) (row_i col_i : Nat) (colormap : List color) :
    Except fault (List color) := do
  let idx ← cell_index w row_i col_i
  let colormap ← store colormap idx (fun c => { c with r := 0 })
  let colormap ← store colormap idx (fun c => { c with g := 0 })
  let colormap ← store colormap idx (fun c => { c with b := 0 })
  store colormap idx (fun c => { c with a := 1 })

/-- Loops of lines 76-83: `row_i` runs below `w`, `col_i` below `h`. -/
def fill_colormap (w h : Int) (colormap : List color) : Except fault (List color) :=
  for_loop (fun row_i cm => for_loop (fun col_i cm2 => fill_cell w row_i col_i cm2) h.toNat cm)
    w.toNat colormap

/-- Body of the seed placement loop (lines 86-95) for the loop variable `seed`; the state is
the pair `(map, colormap)`. -/
def place_seed (w : Int) (seeds : List point) (seed_colors : List color) (seed : Nat)
    (st : List point × List color) : Except fault (List point × List color) := do
  let s ← load seeds seed
  let x := s.x
  let y := s.y
  let idx ← cell_index w x y
  let map ← store st.1 idx (fun p => { p with seed := seed })
  let map ← store map idx (fun p => { p with x := x })
  let map ← store map idx (fun p => { p with y := y })
  let c ← load seed_colors seed
  let colormap ← store st.2 idx (fun q => { q with r := c.r })
  let colormap ← store colormap idx (fun q => { q with g := c.g })
  let colormap ← store colormap idx (fun q => { q with b := c.b })
  let colormap ← store colormap idx (fun q => { q with a := c.a })
  pure (map, colormap)

/-- Lambda of the `std::transform` of lines 105-109. -/
def to_rawcolor (c : color) : rawcolor :=
  { r := to_uchar (c.r * 255), g := to_uchar (c.g * 255), b := to_uchar (c.b * 255),
    a := to_uchar (1 * 255) }

/-- Host buffers after line 111: the state in which the OpenCL part starts. -/
structure host where
  map : List point
  seeds : List point
  seed_colors : List color
  colormap : List color
  output_img : List rawcolor
  deriving DecidableEq, Repr

/-- Lines 35-47 of `main`: the five buffers, value-initialised. -/
def main_alloc (w h n_seed : Int) : Except fault host := do
  let wh ← int_checked (w * h)
  let map ← vector_alloc wh ({ seed := 0, x := 0, y := 0 } : point)
  let seeds ← vector_alloc n_seed ({ seed := 0, x := 0, y := 0 } : point)
  let seed_colors ← vector_alloc n_seed ({ r := 0, g := 0, b := 0, a := 0 } : color)
  let colormap ← vector_alloc wh ({ r := 0, g := 0, b := 0, a := 0 } : color)
  let output_img ← vector_alloc wh ({ r := 0, g := 0, b := 0, a := 0 } : rawcolor)
  pure { map := map, seeds := seeds, seed_colors := seed_colors, colormap := colormap,
         output_img := output_img }

/-- Lines 35-111 of `main` for the constants `w`, `h`, `n_seed`: allocation, generation of
colours and seeds, fill loop, seed placement loop and conversion to 8-bit colours. The
distributions `dist_w{0, w-1}` and `dist_h{0, h-1}` require `0 ≤ w-1` and `0 ≤ h-1`. -/
def main_init (w h n_seed : Int) (rnd_color : Nat → ℚ × ℚ × ℚ) (rnd_point : Nat → Int × Int) :
    Except fault host := do
  let st ← main_alloc w h n_seed
  let seed_colors := generate_colors rnd_color st.seed_colors.length
  if ¬ (0 ≤ w - 1 ∧ 0 ≤ h - 1) then .error .undefined_behaviour else
  let seeds := (generate_seeds rnd_point st.seeds.length).1
  let colormap ← fill_colormap w h st.colormap
  let placed ← for_loop (place_seed w seeds seed_colors) n_seed.toNat (st.map, colormap)
  pure { map := placed.1, seeds := seeds, seed_colors := seed_colors, colormap := placed.2,
         output_img := placed.2.map to_rawcolor }

/-- OpenCL entry points that occur in `main`. `clEnqueueNDRangeKernel` carries the global
work size of the dispatch; it is the only call that executes the kernel `jump_flood`. -/
inductive cl_call where
  | clGetPlatformIDs
  | clGetDeviceIDs
  | clGetPlatformInfo
  | clGetDeviceInfo
  | clCreateContext
  | clCreateCommandQueueWithProperties
  | clCreateProgramWithSource
  | clBuildProgram
  | clGetProgramBuildInfo
  | clCreateKernel
  | clEnqueueNDRangeKernel (kernel_dims : Int × Int)
  | clReleaseKernel
  | clReleaseProgram
  | clReleaseCommandQueue
  | clReleaseContext
  | clReleaseDevice
  deriving DecidableEq, Repr

/-- Answers of the OpenCL runtime: the number of platforms, the number of devices of each
platform, and the status returned by the call number `k` of the run (`0` is `CL_SUCCESS`). -/
structure backend where
  numPlatforms : Nat
  numDevices : Nat → Nat
  status : Nat → Int

/-- Calls made so far, and the exit code of `main` (or the fault that stopped it). -/
abbrev outcome := List cl_call × Except fault Int

/-- One API call followed by `if(status != CL_SUCCESS){ ...; return -1; }`. -/
def checked_call (b : backend) (c : cl_call) (tr : List cl_call)
    (next : List cl_call → outcome) : outcome :=
  if b.status tr.length ≠ 0 then (tr ++ [c], .ok (-1)) else next (tr ++ [c])

/-- Loop of lines 128-141 over the platforms: the calls made by the first `i` iterations
and whether the loop is still running (`false` after a `return -1`). -/
def device_loop (b : backend) : Nat → List cl_call → List cl_call × Bool
  | 0, tr => (tr, true)
  | i + 1, tr =>
    let r := device_loop b i tr
    if r.2 = false then r else
    if b.status r.1.length ≠ 0 then (r.1 ++ [cl_call.clGetDeviceIDs], false) else
    if b.numDevices i = 0 then (r.1 ++ [cl_call.clGetDeviceIDs], true) else
    if b.status (r.1.length + 1) ≠ 0 then
      (r.1 ++ [cl_call.clGetDeviceIDs, cl_call.clGetDeviceIDs], false)
    else (r.1 ++ [cl_call.clGetDeviceIDs, cl_call.clGetDeviceIDs], true)

/-- Lines 113-256 of `main`: the OpenCL part. The block of lines 207-249, which holds the
only `clEnqueueNDRangeKernel`, is a comment, so the kernel created at line 202 is released
at line 250 without a dispatch in between. -/
def main_opencl (b : backend) : outcome :=
  checked_call b .clGetPlatformIDs [] fun tr =>
  checked_call b .clGetPlatformIDs tr fun tr =>
  let r := device_loop b b.numPlatforms tr
  if r.2 = false then (r.1, .ok (-1)) else
  if b.numPlatforms = 0 ∨ b.numDevices 0 = 0 then (r.1, .error .undefined_behaviour) else
  checked_call b .clGetPlatformInfo r.1 fun tr =>
  checked_call b .clGetPlatformInfo tr fun tr =>
  checked_call b .clGetDeviceInfo tr fun tr =>
  checked_call b .clGetDeviceInfo tr fun tr =>
  checked_call b .clCreateContext tr fun tr =>
  checked_call b .clCreateCommandQueueWithProperties tr fun tr =>
  checked_call b .clCreateProgramWithSource tr fun tr =>
  if b.status tr.length ≠ 0 then
    (tr ++ [.clBuildProgram, .clGetProgramBuildInfo, .clGetProgramBuildInfo], .ok (-1))
  else
  checked_call b .clCreateKernel (tr ++ [.clBuildProgram]) fun tr =>
  (tr ++ [.clReleaseKernel, .clReleaseProgram, .clReleaseCommandQueue, .clReleaseContext,
          .clReleaseDevice], .ok 0)

/-- Function `main` for the constants `w`, `h`, `n_seed`: the host initialisation followed
by the OpenCL part. -/
def main (w h n_seed : Int) (rnd_color : Nat → ℚ × ℚ × ℚ) (rnd_point : Nat → Int × Int)
    (b : backend) : outcome :=
  match main_init w h n_seed rnd_color rnd_point with
  | .error e => ([], .error e)
  | .ok _ => main_opencl b

/-- Global work sizes of the kernel dispatches of a run, in order: one entry for every
propagation pass executed. -/
def passes (tr : List cl_call) : List (Int × Int) :=
  tr.filterMap fun c =>
    match c with
    | .clEnqueueNDRangeKernel kernel_dims => some kernel_dims
    | _ => none

end jump_flood

namespace scalar_prod

/-- Conversion `static_cast<int>(v)` of a `size_t`: reduction to the 32-bit two's
complement range. -/
def to_int (v : Nat) : Int :=
  ((v : Int) + 2147483648) % 4294967296 - 2147483648

/-- Function `cpu_scalar_prod_naive(A, B, N)`. -/
def cpu_scalar_prod_naive (A B : List ℚ) (N : Int) : Except fault ℚ :=
  for_loop (fun i c => do
    let a ← load A i
    let b ← load B i
    pure (c + a * b)) N.toNat 0

/-- Lambda `cpu_scalar_prod_elementary(A, B, start, end)`: the loop variable of iteration
`j` is `start + j`. -/
def cpu_scalar_prod_elementary (A B : List ℚ) (start end_ : Int) : Except fault ℚ :=
  for_loop (fun j sum => do
    let a ← load A (start + j)
    let b ← load B (start + j)
    pure (sum + a * b)) (end_ - start).toNat 0

/-- Bounds `start = k * size / n` and `end = (k+1) * size / n` of chunk `k` (lines 36-37),
in `int` arithmetic; `/` truncates toward zero and a zero divisor is undefined. -/
def chunk (n size k : Int) : Except fault (Int × Int) := do
  let ks ← int_checked (k * size)
  let k1 ← int_checked (k + 1)
  let k1s ← int_checked (k1 * size)
  if n = 0 then .error .undefined_behaviour else
  pure (Int.tdiv ks n, Int.tdiv k1s n)

/-- Call `std::accumulate(futures.begin(), futures.end(), acc, ...)`: `acc + f.get()` for
every future in order. A future is represented by the result of its task. -/
def accumulate : List (Except fault ℚ) → ℚ → Except fault ℚ
  | [], acc => .ok acc
  | f :: fs, acc => f >>= fun v => accumulate fs (acc + v)

/-- Function `cpu_scalar_prod_parallel(A, B, N)`, with `n` the value returned by
`std::thread::hardware_concurrency()`. The elements of `futures` start without a shared
state (`get` on them is undefined) and element `k` receives the task of chunk `k`. -/
def cpu_scalar_prod_parallel (n : Int) (A B : List ℚ) (_N : Int) : Except fault ℚ := do
  let futures ← vector_alloc n (Except.error fault.undefined_behaviour : Except fault ℚ)
  let futures ← for_loop (fun k fs => do
    let size := to_int A.length
    let bounds ← chunk n size k
    store fs k (fun _ => cpu_scalar_prod_elementary A B bounds.1 bounds.2)) n.toNat futures
  accumulate futures 0

/-- Line 70 of `gpu_scalar_prod.cpp`, `auto factor = wgs * 2;`, in `std::size_t`
arithmetic. -/
def factor (wgs : Nat) : Nat :=
  wgs * 2 % 18446744073709551616

/-- Lambda `new_size` (lines 75-78) with its captured value `factor`, in `std::size_t`
arithmetic; a zero divisor is undefined. -/
def new_size (factor actual : Nat) : Except fault Nat :=
  if factor = 0 then .error .undefined_behaviour
  else .ok ((actual / factor + (if actual % factor = 0 then 0 else 1)) % 18446744073709551616)

/-- Lambda `global` (line 81), which captures `new_size` (and with it `factor`) and `wgs`. -/
def global (factor wgs actual : Nat) : Except fault Nat :=
  new_size factor actual >>= fun s => .ok (s * wgs % 18446744073709551616)

/-- One enqueued `reduce` kernel (lines 106-118): the global and the local work size and the
kernel argument `curr`, the length of the input of the pass. -/
structure reduce_pass where
  global_size : Nat
  local_size : Nat
  length : Nat
  deriving DecidableEq, Repr

/-- Loop `while (curr > 1)` of lines 103-122 with the work-group size `wgs` left by lines
62-68 (not zero: line 68 throws otherwise). `curr` is a `cl_uint`, `passes` the kernels
enqueued so far. Every evaluation of the loop condition takes one unit of `fuel`; the
result is `none` when the fuel ends before the loop does, and otherwise the final `curr`
with the enqueued passes, or the fault that stopped the run. -/
def reduce_loop (wgs : Nat) :
    Nat → Nat → List reduce_pass → Option (Except fault (Nat × List reduce_pass))
  | 0, _, _ => none
  | fuel + 1, curr, passes =>
    if curr > 1 then
      match global (factor wgs) wgs curr with
      | .error e => some (.error e)
      | .ok g =>
        match new_size (factor wgs) curr with
        | .error e => some (.error e)
        | .ok s =>
          reduce_loop wgs fuel (s % 4294967296)
            (passes ++ [{ global_size := g, local_size := wgs, length := curr }])
    else some (.ok (curr, passes))

/-- Lines 101-122 of `main` in `gpu_scalar_prod.cpp` for the input length `N` (a
`std::size_t`): `cl_uint curr = static_cast<cl_uint>(N)` and the reduction loop. -/
def main_reduce (wgs N fuel : Nat) : Option (Except fault (Nat × List reduce_pass)) :=
  reduce_loop wgs fuel (N % 4294967296) []

end scalar_prod

/-! ## Buffers, checked arithmetic and loops -/

/-- Inside the buffer there is an element. -/
theorem cell_of_lt {α : Type} (buf : List α) (i : Int) (h0 : 0 ≤ i) (h1 : i < buf.length) :
    ∃ v, cell buf i = some v := by
  have hlt : i.toNat < buf.length := by omega
  exact ⟨buf[i.toNat], by simp [cell, h0, List.getElem?_eq_getElem hlt]⟩

/-- Elements of a buffer after a write at index `i`. -/
theorem cell_set {α : Type} (buf : List α) (i j : Int) (v : α) (h0 : 0 ≤ i)
    (h1 : i < buf.length) :
    cell (buf.set i.toNat v) j = if j = i then some v else cell buf j := by
  have hlt : i.toNat < buf.length := by omega
  unfold cell
  by_cases hj : 0 ≤ j
  · simp only [hj, if_true, List.getElem?_set]
    by_cases hji : j = i
    · subst hji
      simp [hlt]
    · have : i.toNat ≠ j.toNat := by omega
      simp [this, hji]
  · have : j ≠ i := by omega
    simp [hj, this]

/-- A store to an existing element succeeds and replaces it. -/
theorem store_ok {α : Type} (buf : List α) (i : Int) (f : α → α) (v : α)
    (h : cell buf i = some v) : store buf i f = .ok (buf.set i.toNat (f v)) := by
  simp [store, h]

/-- Two consecutive stores to the same element. -/
theorem store_set {α : Type} (buf : List α) (i : Int) (f : α → α) (v : α) (h0 : 0 ≤ i)
    (h1 : i < buf.length) :
    store (buf.set i.toNat v) i f = .ok (buf.set i.toNat (f v)) := by
  have hc : cell (buf.set i.toNat v) i = some v := by rw [cell_set buf i i v h0 h1]; simp
  rw [store_ok _ i f v hc, List.set_set]

theorem load_ok {α : Type} (buf : List α) (i : Int) (v : α) (h : cell buf i = some v) :
    load buf i = .ok v := by
  simp [load, h]

theorem int_checked_ok (v : Int) (h0 : INT_MIN ≤ v) (h1 : v ≤ INT_MAX) :
    int_checked v = .ok v := by
  simp [int_checked, h0, h1]

/-- The loop with one more iteration runs the shorter loop and then the last body. -/
theorem for_loop_succ {σ : Type} (body : Nat → σ → Except fault σ) (k : Nat) (s : σ) :
    for_loop body (k + 1) s = for_loop body k s >>= body k := rfl

theorem except_bind_ok {ε α β : Type} (a : α) (f : α → Except ε β) :
    (Except.ok a >>= f) = f a := rfl

theorem vector_alloc_ok {α : Type} (n : Int) (zero : α) (h : 0 ≤ n) :
    vector_alloc n zero = .ok (List.replicate n.toNat zero) := by
  simp [vector_alloc, h]

theorem cell_replicate {α : Type} (n : Nat) (v : α) (j : Int) (h0 : 0 ≤ j) (h1 : j < n) :
    cell (List.replicate n v) j = some v := by
  have : j.toNat < n := by omega
  simp [cell, h0, List.getElem?_replicate, this]

theorem cell_map {α β : Type} (f : α → β) (buf : List α) (j : Int) :
    cell (buf.map f) j = (cell buf j).map f := by
  unfold cell
  split
  · simp [List.getElem?_map]
  · rfl

/-- A sequence of two steps that do not throw `length_error` does not throw it. -/
theorem bind_ne_length_error {α β : Type} (r : Except fault α) (f : α → Except fault β)
    (hr : r ≠ .error .length_error) (hf : ∀ a, f a ≠ .error .length_error) :
    (r >>= f) ≠ .error .length_error := by
  cases r with
  | error e =>
    intro h
    have he : e = fault.length_error := by
      simpa [bind, Except.bind] using h
    exact hr (by rw [he])
  | ok a => exact hf a

theorem int_checked_ne_length_error (v : Int) : int_checked v ≠ .error .length_error := by
  unfold int_checked
  split <;> simp

theorem load_ne_length_error {α : Type} (buf : List α) (i : Int) :
    load buf i ≠ .error .length_error := by
  unfold load
  split <;> simp

theorem store_ne_length_error {α : Type} (buf : List α) (i : Int) (f : α → α) :
    store buf i f ≠ .error .length_error := by
  unfold store
  split <;> simp

theorem for_loop_ne_length_error {σ : Type} (body : Nat → σ → Except fault σ)
    (hbody : ∀ k s, body k s ≠ .error .length_error) (n : Nat) (s : σ) :
    for_loop body n s ≠ .error .length_error := by
  induction n with
  | zero => simp [for_loop]
  | succ k ih => exact bind_ne_length_error _ _ ih (hbody k)

/-! ## jump_flood: host initialisation and OpenCL call sequence -/

namespace jump_flood

/-- On a square grid the index `x*w + y` of an in-range position is inside the buffer. -/
theorem square_index_bounds (w x y : Int) (hx0 : 0 ≤ x) (hx : x < w) (hy0 : 0 ≤ y)
    (hy : y < w) : 0 ≤ x * w ∧ 0 ≤ x * w + y ∧ x * w + y < w * w := by
  have h1 : 0 ≤ x * w := by nlinarith
  have h2 : (x + 1) * w ≤ w * w := by nlinarith
  refine ⟨h1, by omega, by nlinarith⟩

/-- With the second coordinate below `w`, the index `x*w + y` determines the position. -/
theorem square_index_inj (w x y x2 y2 : Int) (hy0 : 0 ≤ y)
    (hy : y < w) (hy20 : 0 ≤ y2) (hy2 : y2 < w)
    (h : x * w + y = x2 * w + y2) : x = x2 ∧ y = y2 := by
  have hxx : x = x2 := by
    rcases lt_trichotomy x x2 with hlt | heq | hgt
    · exfalso
      have : (x + 1) * w ≤ x2 * w := by nlinarith
      nlinarith
    · exact heq
    · exfalso
      have : (x2 + 1) * w ≤ x * w := by nlinarith
      nlinarith
  subst hxx
  exact ⟨rfl, by omega⟩

theorem cell_index_ok (w x y : Int) (h0 : 0 ≤ x * w) (h1 : 0 ≤ y)
    (h2 : x * w + y ≤ INT_MAX) : cell_index w x y = .ok (x * w + y) := by
  have hmin : INT_MIN ≤ 0 := by decide
  unfold cell_index
  rw [int_checked_ok (x * w) (by omega) (by omega)]
  show int_checked (x * w + y) = _
  exact int_checked_ok _ (by omega) h2

/-- Inside the buffer, the four assignments of the fill loop body write opaque black. -/
theorem fill_cell_ok (w : Int) (row_i col_i : Nat) (colormap : List color)
    (h0 : 0 ≤ (row_i : Int) * w) (h1 : (row_i : Int) * w + col_i < colormap.length)
    (h2 : (row_i : Int) * w + col_i ≤ INT_MAX) :
    fill_cell w row_i col_i colormap
      = .ok (colormap.set ((row_i : Int) * w + col_i).toNat { r := 0, g := 0, b := 0, a := 1 }) := by
  have hi0 : 0 ≤ (row_i : Int) * w + col_i := by omega
  obtain ⟨v, hv⟩ := cell_of_lt colormap _ hi0 h1
  unfold fill_cell
  rw [cell_index_ok w row_i col_i h0 (by omega) h2]
  show (store colormap _ _ >>= _) = _
  rw [store_ok _ _ _ v hv]
  show (store _ _ _ >>= _) = _
  rw [store_set _ _ _ _ hi0 h1]
  show (store _ _ _ >>= _) = _
  rw [store_set _ _ _ _ hi0 h1]
  show store _ _ _ = _
  rw [store_set _ _ _ _ hi0 h1]

/-- Inside the buffers, the body of the placement loop writes the record
`{seed, x, y}` and the colour of the seed at the index of the seed. -/
theorem place_seed_ok (w : Int) (seeds : List point) (seed_colors : List color) (seed : Nat)
    (st : List point × List color) (s : point) (c : color)
    (hs : cell seeds seed = some s) (hc : cell seed_colors seed = some c)
    (h0 : 0 ≤ s.x * w) (hy : 0 ≤ s.y) (h1 : s.x * w + s.y < st.1.length)
    (h2 : s.x * w + s.y < st.2.length) (h3 : s.x * w + s.y ≤ INT_MAX) :
    place_seed w seeds seed_colors seed st
      = .ok (st.1.set (s.x * w + s.y).toNat { seed := seed, x := s.x, y := s.y },
             st.2.set (s.x * w + s.y).toNat c) := by
  have hi0 : 0 ≤ s.x * w + s.y := by omega
  obtain ⟨v, hv⟩ := cell_of_lt st.1 _ hi0 h1
  obtain ⟨q, hq⟩ := cell_of_lt st.2 _ hi0 h2
  unfold place_seed
  rw [load_ok _ _ _ hs]
  show (cell_index w s.x s.y >>= _) = _
  rw [cell_index_ok w s.x s.y h0 hy h3]
  show (store st.1 _ _ >>= _) = _
  rw [store_ok _ _ _ v hv]
  show (store _ _ _ >>= _) = _
  rw [store_set _ _ _ _ hi0 h1]
  show (store _ _ _ >>= _) = _
  rw [store_set _ _ _ _ hi0 h1]
  show (load seed_colors _ >>= _) = _
  rw [load_ok _ _ _ hc]
  show (store st.2 _ _ >>= _) = _
  rw [store_ok _ _ _ q hq]
  show (store _ _ _ >>= _) = _
  rw [store_set _ _ _ _ hi0 h2]
  show (store _ _ _ >>= _) = _
  rw [store_set _ _ _ _ hi0 h2]
  show (store _ _ _ >>= _) = _
  rw [store_set _ _ _ _ hi0 h2]
  rfl

theorem generate_seeds_length (rnd_point : Nat → Int × Int) (n : Nat) :
    (generate_seeds rnd_point n).1.length = n := by
  induction n with
  | zero => rfl
  | succ k ih => simp [generate_seeds, ih]

theorem generate_seeds_counter (rnd_point : Nat → Int × Int) (n : Nat) :
    (generate_seeds rnd_point n).2 = n := by
  induction n with
  | zero => rfl
  | succ k ih => simp [generate_seeds, gen_seed, ih]

theorem generate_seeds_get (rnd_point : Nat → Int × Int) (n i : Nat) (h : i < n) :
    (generate_seeds rnd_point n).1[i]?
      = some { seed := (((i : Int) + 1) % 4294967296).toNat, x := (rnd_point i).1,
               y := (rnd_point i).2 } := by
  induction n with
  | zero => omega
  | succ k ih =>
    have hlen := generate_seeds_length rnd_point k
    have hctr := generate_seeds_counter rnd_point k
    by_cases hik : i < k
    · simp only [generate_seeds]
      rw [List.getElem?_append_left (by omega)]
      exact ih hik
    · have hik2 : i = k := by omega
      subst hik2
      simp only [generate_seeds]
      rw [List.getElem?_append_right (by omega)]
      simp [hlen, gen_seed, hctr]

theorem generate_seeds_cell (rnd_point : Nat → Int × Int) (n i : Nat) (h : i < n) :
    cell (generate_seeds rnd_point n).1 (i : Int)
      = some { seed := (((i : Int) + 1) % 4294967296).toNat, x := (rnd_point i).1,
               y := (rnd_point i).2 } := by
  simp [cell, generate_seeds_get rnd_point n i h]

theorem generate_colors_length (rnd_color : Nat → ℚ × ℚ × ℚ) (n : Nat) :
    (generate_colors rnd_color n).length = n := by
  simp [generate_colors]

theorem generate_colors_cell (rnd_color : Nat → ℚ × ℚ × ℚ) (n i : Nat) (h : i < n) :
    cell (generate_colors rnd_color n) (i : Int) = some (gen_color (rnd_color i)) := by
  simp [cell, generate_colors, List.getElem?_map, List.getElem?_range h]

/-- Inner fill loop: it completes, keeps the length and the black cells, and makes the
first `c` cells of the row black. -/
theorem fill_row_ok (w : Int) (row_i : Nat) (colormap : List color) (c : Nat)
    (h0 : 0 ≤ (row_i : Int) * w)
    (hb : ∀ col : Nat, col < c →
      (row_i : Int) * w + col < colormap.length ∧ (row_i : Int) * w + col ≤ INT_MAX) :
    ∃ cm, for_loop (fun col_i cm2 => fill_cell w row_i col_i cm2) c colormap = .ok cm
      ∧ cm.length = colormap.length
      ∧ (∀ j, cell colormap j = some { r := 0, g := 0, b := 0, a := 1 }
            → cell cm j = some { r := 0, g := 0, b := 0, a := 1 })
      ∧ ∀ col : Nat, col < c →
          cell cm ((row_i : Int) * w + col) = some { r := 0, g := 0, b := 0, a := 1 } := by
  induction c with
  | zero => exact ⟨colormap, rfl, rfl, fun _ h => h, fun _ h => by omega⟩
  | succ k ih =>
    obtain ⟨cm, hrun, hlen, hkeep, hnew⟩ := ih (fun col hcol => hb col (by omega))
    obtain ⟨hk1, hk2⟩ := hb k (by omega)
    have hstep := fill_cell_ok w row_i k cm h0 (by rw [hlen]; exact hk1) hk2
    have hi0 : 0 ≤ (row_i : Int) * w + k := by omega
    have hi1 : (row_i : Int) * w + k < cm.length := by rw [hlen]; exact hk1
    refine ⟨cm.set ((row_i : Int) * w + k).toNat { r := 0, g := 0, b := 0, a := 1 },
      ?_, ?_, ?_, ?_⟩
    · rw [for_loop_succ, hrun]
      exact hstep
    · simp [hlen]
    · intro j hj
      rw [cell_set cm _ j _ hi0 hi1]
      split
      · rfl
      · exact hkeep j hj
    · intro col hcol
      rw [cell_set cm _ _ _ hi0 hi1]
      split
      · rfl
      · exact hnew col (by
          have : col ≠ k := by
            intro hck
            subst hck
            simp at *
          omega)

/-- Fill loops: when every index is inside the buffer they complete and every cell
`row*w + col` with `row < w`, `col < h` is opaque black. -/
theorem fill_colormap_ok (w h : Int) (colormap : List color) (h0 : 0 ≤ w)
    (hb : ∀ row col : Nat, (row : Int) < w → (col : Int) < h →
      (row : Int) * w + col < colormap.length ∧ (row : Int) * w + col ≤ INT_MAX) :
    ∃ cm, fill_colormap w h colormap = .ok cm
      ∧ cm.length = colormap.length
      ∧ ∀ row col : Nat, (row : Int) < w → (col : Int) < h →
          cell cm ((row : Int) * w + col) = some { r := 0, g := 0, b := 0, a := 1 } := by
  have key : ∀ r : Nat, r ≤ w.toNat →
      ∃ cm, for_loop (fun row_i cm1 =>
              for_loop (fun col_i cm2 => fill_cell w row_i col_i cm2) h.toNat cm1) r colormap
            = .ok cm
        ∧ cm.length = colormap.length
        ∧ ∀ row col : Nat, row < r → (col : Int) < h →
            cell cm ((row : Int) * w + col) = some { r := 0, g := 0, b := 0, a := 1 } := by
    intro r
    induction r with
    | zero => exact fun _ => ⟨colormap, rfl, rfl, fun _ _ h => by omega⟩
    | succ k ih =>
      intro hk
      obtain ⟨cm, hrun, hlen, hdone⟩ := ih (by omega)
      have hkw : (k : Int) < w := by omega
      obtain ⟨cm2, hrun2, hlen2, hkeep2, hnew2⟩ := fill_row_ok w k cm h.toNat
        (by positivity) (fun col hcol => by
          rw [hlen]
          exact hb k col hkw (by omega))
      refine ⟨cm2, ?_, by rw [hlen2, hlen], ?_⟩
      · rw [for_loop_succ, hrun]
        exact hrun2
      · intro row col hrow hcol
        by_cases hrk : row < k
        · exact hkeep2 _ (hdone row col hrk hcol)
        · have : row = k := by omega
          subst this
          exact hnew2 col (by omega)
  obtain ⟨cm, hrun, hlen, hdone⟩ := key w.toNat (le_refl _)
  exact ⟨cm, hrun, hlen, fun row col hrow hcol => hdone row col (by omega) hcol⟩

/-- Placement loop after `k` iterations: it completes; a cell that no seed indexes is
unchanged; the cell of a seed that no later seed indexes holds the record and the colour
written for that seed. -/
theorem place_loop_ok (w : Int) (seeds : List point) (seed_colors : List color)
    (pt : Nat → point) (cl : Nat → color) (map0 : List point) (colormap0 : List color)
    (k : Nat)
    (hs : ∀ i : Nat, i < k → cell seeds (i : Int) = some (pt i))
    (hc : ∀ i : Nat, i < k → cell seed_colors (i : Int) = some (cl i))
    (hb : ∀ i : Nat, i < k → 0 ≤ (pt i).x * w ∧ 0 ≤ (pt i).y
      ∧ (pt i).x * w + (pt i).y < map0.length ∧ (pt i).x * w + (pt i).y < colormap0.length
      ∧ (pt i).x * w + (pt i).y ≤ INT_MAX) :
    ∃ st, for_loop (place_seed w seeds seed_colors) k (map0, colormap0) = .ok st
      ∧ st.1.length = map0.length ∧ st.2.length = colormap0.length
      ∧ (∀ j : Int, (∀ i : Nat, i < k → (pt i).x * w + (pt i).y ≠ j) →
            cell st.1 j = cell map0 j ∧ cell st.2 j = cell colormap0 j)
      ∧ (∀ i : Nat, i < k →
            (∀ i2 : Nat, i < i2 → i2 < k →
              (pt i2).x * w + (pt i2).y ≠ (pt i).x * w + (pt i).y) →
            cell st.1 ((pt i).x * w + (pt i).y)
                = some { seed := i, x := (pt i).x, y := (pt i).y }
              ∧ cell st.2 ((pt i).x * w + (pt i).y) = some (cl i)) := by
  induction k with
  | zero =>
    exact ⟨(map0, colormap0), rfl, rfl, rfl, fun _ _ => ⟨rfl, rfl⟩, fun _ h => by omega⟩
  | succ n ih =>
    obtain ⟨st, hrun, hl1, hl2, hold, hlast⟩ := ih (fun i hi => hs i (by omega))
      (fun i hi => hc i (by omega)) (fun i hi => hb i (by omega))
    obtain ⟨b0, by0, b1, b2, b3⟩ := hb n (by omega)
    have hi0 : 0 ≤ (pt n).x * w + (pt n).y := by omega
    have hi1 : (pt n).x * w + (pt n).y < st.1.length := by rw [hl1]; exact b1
    have hi2 : (pt n).x * w + (pt n).y < st.2.length := by rw [hl2]; exact b2
    have hstep := place_seed_ok w seeds seed_colors n st (pt n) (cl n) (hs n (by omega))
      (hc n (by omega)) b0 by0 hi1 hi2 b3
    refine ⟨(st.1.set ((pt n).x * w + (pt n).y).toNat
                { seed := n, x := (pt n).x, y := (pt n).y },
             st.2.set ((pt n).x * w + (pt n).y).toNat (cl n)), ?_, ?_, ?_, ?_, ?_⟩
    · rw [for_loop_succ, hrun]
      exact hstep
    · simp [hl1]
    · simp [hl2]
    · intro j hj
      have hne : j ≠ (pt n).x * w + (pt n).y := fun h => hj n (by omega) h.symm
      obtain ⟨ho1, ho2⟩ := hold j (fun i hi => hj i (by omega))
      constructor
      · show cell (st.1.set _ _) j = _
        rw [cell_set st.1 _ j _ hi0 hi1, if_neg hne, ho1]
      · show cell (st.2.set _ _) j = _
        rw [cell_set st.2 _ j _ hi0 hi2, if_neg hne, ho2]
    · intro i hi hlater
      by_cases hin : i = n
      · subst hin
        constructor
        · show cell (st.1.set _ _) _ = _
          rw [cell_set st.1 _ _ _ hi0 hi1, if_pos rfl]
        · show cell (st.2.set _ _) _ = _
          rw [cell_set st.2 _ _ _ hi0 hi2, if_pos rfl]
      · have hlt : i < n := by omega
        have hne : (pt i).x * w + (pt i).y ≠ (pt n).x * w + (pt n).y :=
          fun h => hlater n hlt (by omega) h.symm
        obtain ⟨ho1, ho2⟩ := hlast i hlt (fun i2 h1 h2 => hlater i2 h1 (by omega))
        constructor
        · show cell (st.1.set _ _) _ = _
          rw [cell_set st.1 _ _ _ hi0 hi1, if_neg hne, ho1]
        · show cell (st.2.set _ _) _ = _
          rw [cell_set st.2 _ _ _ hi0 hi2, if_neg hne, ho2]

theorem main_alloc_ok (w h n_seed : Int) (hwh0 : 0 ≤ w * h) (hwh : w * h ≤ INT_MAX)
    (hn : 0 ≤ n_seed) :
    main_alloc w h n_seed = .ok
      { map := List.replicate (w * h).toNat { seed := 0, x := 0, y := 0 },
        seeds := List.replicate n_seed.toNat { seed := 0, x := 0, y := 0 },
        seed_colors := List.replicate n_seed.toNat { r := 0, g := 0, b := 0, a := 0 },
        colormap := List.replicate (w * h).toNat { r := 0, g := 0, b := 0, a := 0 },
        output_img := List.replicate (w * h).toNat { r := 0, g := 0, b := 0, a := 0 } } := by
  have hmin : INT_MIN ≤ 0 := by decide
  unfold main_alloc
  rw [int_checked_ok (w * h) (by omega) hwh]
  show (vector_alloc (w * h) _ >>= _) = _
  rw [vector_alloc_ok _ _ hwh0]
  show (vector_alloc n_seed _ >>= _) = _
  rw [vector_alloc_ok _ _ hn]
  show (vector_alloc n_seed _ >>= _) = _
  rw [vector_alloc_ok _ _ hn]
  show (vector_alloc (w * h) _ >>= _) = _
  rw [vector_alloc_ok _ _ hwh0]
  show (vector_alloc (w * h) _ >>= _) = _
  rw [vector_alloc_ok _ _ hwh0]
  rfl

/-- Host initialisation on a square grid that fits the `int` range, with every generated
position inside the grid: the run completes, and the buffers are characterised cell by
cell. Cells without a seed keep the value-initialised record and the fill colour; the cell
of a seed not overwritten later holds the loop index, the coordinates and the colour of
that seed. -/
theorem main_init_square (w : Int) (n : Nat) (rnd_color : Nat → ℚ × ℚ × ℚ)
    (rnd_point : Nat → Int × Int) (hw : 0 < w) (hfit : w * w ≤ INT_MAX)
    (hpos : ∀ i : Nat, i < n →
      0 ≤ (rnd_point i).1 ∧ (rnd_point i).1 < w ∧ 0 ≤ (rnd_point i).2 ∧ (rnd_point i).2 < w) :
    ∃ st, main_init w w n rnd_color rnd_point = .ok st
      ∧ st.seeds = (generate_seeds rnd_point n).1
      ∧ st.seed_colors = generate_colors rnd_color n
      ∧ st.map.length = (w * w).toNat
      ∧ st.colormap.length = (w * w).toNat
      ∧ st.output_img = st.colormap.map to_rawcolor
      ∧ (∀ x y : Int, 0 ≤ x → x < w → 0 ≤ y → y < w →
            (∀ i : Nat, i < n → rnd_point i ≠ (x, y)) →
            cell st.map (x * w + y) = some { seed := 0, x := 0, y := 0 }
              ∧ cell st.colormap (x * w + y) = some { r := 0, g := 0, b := 0, a := 1 })
      ∧ (∀ i : Nat, i < n →
            (∀ i2 : Nat, i < i2 → i2 < n → rnd_point i2 ≠ rnd_point i) →
            cell st.map ((rnd_point i).1 * w + (rnd_point i).2)
                = some { seed := i, x := (rnd_point i).1, y := (rnd_point i).2 }
              ∧ cell st.colormap ((rnd_point i).1 * w + (rnd_point i).2)
                = some (gen_color (rnd_color i))) := by
  have hww : 0 ≤ w * w := by nlinarith
  obtain ⟨cm, hfill, hcmlen, hblack⟩ := fill_colormap_ok w w
    (List.replicate (w * w).toNat ({ r := 0, g := 0, b := 0, a := 0 } : color)) (by omega)
    (fun row col hrow hcol => by
      obtain ⟨_, _, h3⟩ := square_index_bounds w row col (by positivity) hrow (by positivity) hcol
      simp only [List.length_replicate]
      constructor
      · omega
      · omega)
  simp only [List.length_replicate] at hcmlen
  obtain ⟨st, hrun, hl1, hl2, hold, hlast⟩ := place_loop_ok w (generate_seeds rnd_point n).1
    (generate_colors rnd_color n)
    (fun i => { seed := (((i : Int) + 1) % 4294967296).toNat, x := (rnd_point i).1,
                y := (rnd_point i).2 })
    (fun i => gen_color (rnd_color i))
    (List.replicate (w * w).toNat ({ seed := 0, x := 0, y := 0 } : point)) cm n
    (fun i hi => generate_seeds_cell rnd_point n i hi)
    (fun i hi => generate_colors_cell rnd_color n i hi)
    (fun i hi => by
      obtain ⟨p1, p2, p3, p4⟩ := hpos i hi
      obtain ⟨q1, q2, q3⟩ := square_index_bounds w _ _ p1 p2 p3 p4
      simp only [List.length_replicate, hcmlen]
      refine ⟨q1, p3, by omega, by omega, by omega⟩)
  simp only [List.length_replicate] at hl1
  refine ⟨{ map := st.1, seeds := (generate_seeds rnd_point n).1,
            seed_colors := generate_colors rnd_color n, colormap := st.2,
            output_img := st.2.map to_rawcolor }, ?_, rfl, rfl, hl1, by rw [hl2, hcmlen], rfl,
          ?_, ?_⟩
  · unfold main_init
    rw [main_alloc_ok w w n hww hfit (by positivity)]
    have hcond : (0 : Int) ≤ w - 1 ∧ (0 : Int) ≤ w - 1 := ⟨by omega, by omega⟩
    simp only [except_bind_ok, List.length_replicate, Int.toNat_ofNat,
      if_neg (not_not.mpr hcond), hfill, hrun]
    rfl
  · intro x y hx0 hx hy0 hy hno
    obtain ⟨q1, q2, q3⟩ := square_index_bounds w x y hx0 hx hy0 hy
    obtain ⟨ho1, ho2⟩ := hold (x * w + y) (fun i hi heq => by
      obtain ⟨p1, p2, p3, p4⟩ := hpos i hi
      obtain ⟨e1, e2⟩ := square_index_inj w _ _ x y p3 p4 hy0 hy heq
      exact hno i hi (Prod.ext e1 e2))
    constructor
    · show cell st.1 _ = _
      rw [ho1]
      exact cell_replicate _ _ _ q2 (by omega)
    · show cell st.2 _ = _
      rw [ho2]
      have := hblack x.toNat y.toNat (by omega) (by omega)
      rwa [Int.toNat_of_nonneg hx0, Int.toNat_of_nonneg hy0] at this
  · intro i hi hlater
    exact hlast i hi (fun i2 h1 h2 heq => by
      obtain ⟨p1, p2, p3, p4⟩ := hpos i hi
      obtain ⟨r1, r2, r3, r4⟩ := hpos i2 h2
      obtain ⟨e1, e2⟩ := square_index_inj w _ _ _ _ r3 r4 p3 p4 heq
      exact hlater i2 h1 h2 (Prod.ext e1 e2))

theorem to_rawcolor_background :
    to_rawcolor { r := 0, g := 0, b := 0, a := 1 } = { r := 0, g := 0, b := 0, a := 255 } := by
  simp [to_rawcolor, to_uchar]

theorem seed_identifier (i : Nat) (h : (i : Int) < INT_MAX) :
    (((i : Int) + 1) % 4294967296).toNat = i + 1 := by
  unfold INT_MAX at h
  omega

/-- C1. On every square grid the seed placement loop stores, in the cell of a seed that no
later seed overwrites, the seed's coordinates and the loop index as owner: the owner is one
less than the identifier `seed` that `gen_seed` gave to the seed, so the two never agree. -/
theorem seed_cell_owner_is_loop_index (w : Int) (n : Nat) (rnd_color : Nat → ℚ × ℚ × ℚ)
    (rnd_point : Nat → Int × Int) (hw : 0 < w) (hfit : w * w ≤ INT_MAX)
    (hn : (n : Int) ≤ INT_MAX)
    (hpos : ∀ i : Nat, i < n →
      0 ≤ (rnd_point i).1 ∧ (rnd_point i).1 < w ∧ 0 ≤ (rnd_point i).2 ∧ (rnd_point i).2 < w) :
    ∃ st, main_init w w n rnd_color rnd_point = .ok st
      ∧ ∀ i : Nat, i < n →
          (∀ i2 : Nat, i < i2 → i2 < n → rnd_point i2 ≠ rnd_point i) →
          ∃ s p, cell st.seeds (i : Int) = some s
            ∧ (s.x, s.y) = rnd_point i
            ∧ cell st.map (s.x * w + s.y) = some p
            ∧ p.x = s.x ∧ p.y = s.y
            ∧ p.seed = i ∧ s.seed = i + 1 ∧ p.seed ≠ s.seed := by
  obtain ⟨st, hrun, hseeds, _, _, _, _, _, hlast⟩ :=
    main_init_square w n rnd_color rnd_point hw hfit hpos
  refine ⟨st, hrun, fun i hi hlater => ?_⟩
  obtain ⟨hm, _⟩ := hlast i hi hlater
  have hid := seed_identifier i (by omega)
  refine ⟨{ seed := (((i : Int) + 1) % 4294967296).toNat, x := (rnd_point i).1,
            y := (rnd_point i).2 }, { seed := i, x := (rnd_point i).1, y := (rnd_point i).2 },
          ?_, rfl, hm, rfl, rfl, rfl, hid, ?_⟩
  · rw [hseeds]
    exact generate_seeds_cell rnd_point n i hi
  · show i ≠ (((i : Int) + 1) % 4294967296).toNat
    rw [hid]
    exact Nat.ne_of_lt (Nat.lt_succ_self i)

/-- Instance of `seed_cell_owner_is_loop_index` at the constants of the source,
`w = h = 64` and `n_seed = 8`, with eight seed positions on the diagonal: the seed with
identifier `k + 1` has the owner `k` in its cell. -/
theorem seed_cell_owner_is_loop_index_witness :
    ((0 : Int) < 64 ∧ (64 : Int) * 64 ≤ INT_MAX ∧ ((8 : Nat) : Int) ≤ INT_MAX
      ∧ ∀ i : Nat, i < 8 → (0 : Int) ≤ ((fun k => ((k : Int), (k : Int))) i).1
          ∧ ((fun k => ((k : Int), (k : Int))) i).1 < 64
          ∧ (0 : Int) ≤ ((fun k => ((k : Int), (k : Int))) i).2
          ∧ ((fun k => ((k : Int), (k : Int))) i).2 < 64)
    ∧ ∃ st, main_init 64 64 (8 : Nat) (fun _ => (0, 0, 0)) (fun k => ((k : Int), (k : Int)))
          = .ok st
      ∧ ∀ i : Nat, i < 8 →
          (∀ i2 : Nat, i < i2 → i2 < 8 →
            (fun k => ((k : Int), (k : Int))) i2 ≠ (fun k => ((k : Int), (k : Int))) i) →
          ∃ s p, cell st.seeds (i : Int) = some s
            ∧ (s.x, s.y) = (fun k => ((k : Int), (k : Int))) i
            ∧ cell st.map (s.x * 64 + s.y) = some p
            ∧ p.x = s.x ∧ p.y = s.y
            ∧ p.seed = i ∧ s.seed = i + 1 ∧ p.seed ≠ s.seed :=
  ⟨⟨by decide, by decide, by decide, by decide⟩,
   seed_cell_owner_is_loop_index 64 8 (fun _ => (0, 0, 0)) (fun k => ((k : Int), (k : Int)))
     (by decide) (by decide) (by decide) (by decide)⟩

/-- C2. On every square grid with at least one seed, when the first seed is not
overwritten by a later one, every cell without a seed holds the same owner value as the
cell of the first seed: both are `0`, the value-initialised owner and the first loop index.
The host stores no value that marks a cell as unassigned. -/
theorem unassigned_owner_equals_first_seed_owner (w : Int) (n : Nat)
    (rnd_color : Nat → ℚ × ℚ × ℚ) (rnd_point : Nat → Int × Int) (hw : 0 < w)
    (hfit : w * w ≤ INT_MAX) (hn : 0 < n)
    (hpos : ∀ i : Nat, i < n →
      0 ≤ (rnd_point i).1 ∧ (rnd_point i).1 < w ∧ 0 ≤ (rnd_point i).2 ∧ (rnd_point i).2 < w)
    (hfirst : ∀ i2 : Nat, 0 < i2 → i2 < n → rnd_point i2 ≠ rnd_point 0) :
    ∃ st, main_init w w n rnd_color rnd_point = .ok st
      ∧ ∀ x y : Int, 0 ≤ x → x < w → 0 ≤ y → y < w →
          (∀ i : Nat, i < n → rnd_point i ≠ (x, y)) →
          ∃ p q, cell st.map (x * w + y) = some p
            ∧ cell st.map ((rnd_point 0).1 * w + (rnd_point 0).2) = some q
            ∧ p.seed = 0 ∧ q.seed = 0 ∧ p.seed = q.seed := by
  obtain ⟨st, hrun, _, _, _, _, _, hfree, hlast⟩ :=
    main_init_square w n rnd_color rnd_point hw hfit hpos
  refine ⟨st, hrun, fun x y hx0 hx hy0 hy hno => ?_⟩
  obtain ⟨hp, _⟩ := hfree x y hx0 hx hy0 hy hno
  obtain ⟨hq, _⟩ := hlast 0 hn hfirst
  exact ⟨_, _, hp, hq, rfl, rfl, rfl⟩

/-- Instance of `unassigned_owner_equals_first_seed_owner` at the constants of the source,
`w = h = 64` and `n_seed = 8`, with eight seed positions on the diagonal. -/
theorem unassigned_owner_equals_first_seed_owner_witness :
    ((0 : Int) < 64 ∧ (64 : Int) * 64 ≤ INT_MAX ∧ 0 < 8
      ∧ (∀ i : Nat, i < 8 → (0 : Int) ≤ ((fun k => ((k : Int), (k : Int))) i).1
          ∧ ((fun k => ((k : Int), (k : Int))) i).1 < 64
          ∧ (0 : Int) ≤ ((fun k => ((k : Int), (k : Int))) i).2
          ∧ ((fun k => ((k : Int), (k : Int))) i).2 < 64)
      ∧ ∀ i2 : Nat, 0 < i2 → i2 < 8 →
          (fun k => ((k : Int), (k : Int))) i2 ≠ (fun k => ((k : Int), (k : Int))) 0)
    ∧ ∃ st, main_init 64 64 (8 : Nat) (fun _ => (0, 0, 0)) (fun k => ((k : Int), (k : Int)))
          = .ok st
      ∧ ∀ x y : Int, 0 ≤ x → x < 64 → 0 ≤ y → y < 64 →
          (∀ i : Nat, i < 8 → (fun k => ((k : Int), (k : Int))) i ≠ (x, y)) →
          ∃ p q, cell st.map (x * 64 + y) = some p
            ∧ cell st.map (((fun k => ((k : Int), (k : Int))) 0).1 * 64
                + ((fun k => ((k : Int), (k : Int))) 0).2) = some q
            ∧ p.seed = 0 ∧ q.seed = 0 ∧ p.seed = q.seed :=
  ⟨⟨by decide, by decide, by decide, by decide,
    fun i2 h1 h2 => by interval_cases i2 <;> decide⟩,
   unassigned_owner_equals_first_seed_owner 64 8 (fun _ => (0, 0, 0))
     (fun k => ((k : Int), (k : Int))) (by decide) (by decide) (by decide) (by decide)
     (fun i2 h1 h2 => by interval_cases i2 <;> decide)⟩

/-- C3. The index `(x*w)+y` on grids that are not square. On the 3x2 grid the position
`(2, 1)` gets the index `7`, outside the `3*2` cells, and the fill loop of the host runs
into it; on the 2x3 grid the positions `(0, 2)` and `(1, 0)` both get the index `2`, and of
two seeds at these positions only the second is left in the cell buffer. -/
theorem cell_index_breaks_on_non_square_grid :
    ((2 : Int) < 3 ∧ (1 : Int) < 2 ∧ cell_index 3 2 1 = .ok 7 ∧ ¬ ((7 : Int) < 3 * 2))
    ∧ main_init 3 2 (0 : Nat) (fun _ => (0, 0, 0)) (fun _ => (0, 0))
        = .error .undefined_behaviour
    ∧ ((0 : Int) < 2 ∧ (2 : Int) < 3 ∧ (1 : Int) < 2 ∧ (0 : Int) < 3
        ∧ cell_index 2 0 2 = .ok 2 ∧ cell_index 2 1 0 = .ok 2)
    ∧ (main_init 2 3 (2 : Nat) (fun _ => (0, 0, 0))
          (fun k => if k = 0 then (0, 2) else (1, 0))).map host.map
        = .ok [{ seed := 0, x := 0, y := 0 }, { seed := 0, x := 0, y := 0 },
               { seed := 1, x := 1, y := 0 }, { seed := 0, x := 0, y := 0 },
               { seed := 0, x := 0, y := 0 }, { seed := 0, x := 0, y := 0 }] := by
  refine ⟨⟨by decide, by decide, rfl, by decide⟩, rfl,
    ⟨by decide, by decide, by decide, by decide, rfl, rfl⟩, rfl⟩

theorem generate_seeds_identifiers (rnd_point : Nat → Int × Int) (n : Nat)
    (hn : (n : Int) ≤ INT_MAX) :
    (generate_seeds rnd_point n).1.map point.seed = (List.range n).map (fun i => i + 1) := by
  apply List.ext_getElem?
  intro i
  by_cases hi : i < n
  · rw [List.getElem?_map, generate_seeds_get rnd_point n i hi, List.getElem?_map,
      List.getElem?_range hi]
    simp only [Option.map_some']
    rw [seed_identifier i (by omega)]
  · have h1 : ((generate_seeds rnd_point n).1.map point.seed).length ≤ i := by
      simp [generate_seeds_length]
      omega
    have h2 : ((List.range n).map (fun i => i + 1)).length ≤ i := by
      simp
      omega
    rw [List.getElem?_eq_none h1, List.getElem?_eq_none h2]

/-- C4. For every seed count `n` (an `int`), the `n` seeds produced by `gen_seed` carry
the identifiers `1, 2, ..., n` in generation order: they are non-negative, strictly
ascending and pairwise distinct. -/
theorem gen_seed_identifiers_ascending (rnd_point : Nat → Int × Int) (n : Nat)
    (hn : (n : Int) ≤ INT_MAX) :
    (generate_seeds rnd_point n).1.length = n
      ∧ (generate_seeds rnd_point n).1.map point.seed = (List.range n).map (fun i => i + 1)
      ∧ (∀ s ∈ (generate_seeds rnd_point n).1, (0 : Int) ≤ (s.seed : Int))
      ∧ List.Pairwise (fun a b => a < b) ((generate_seeds rnd_point n).1.map point.seed)
      ∧ ((generate_seeds rnd_point n).1.map point.seed).Nodup := by
  have hids := generate_seeds_identifiers rnd_point n hn
  have hasc : List.Pairwise (fun a b => a < b)
      ((generate_seeds rnd_point n).1.map point.seed) := by
    rw [hids, List.pairwise_map]
    exact List.Pairwise.imp (fun h => by omega) (List.pairwise_lt_range n)
  exact ⟨generate_seeds_length rnd_point n, hids, fun s _ => by positivity, hasc,
    hasc.imp (fun h => Nat.ne_of_lt h)⟩

/-- Instance of `gen_seed_identifiers_ascending` for three seeds. -/
theorem gen_seed_identifiers_ascending_witness :
    ((3 : Nat) : Int) ≤ INT_MAX
    ∧ ((generate_seeds (fun _ => (0, 0)) 3).1.length = 3
      ∧ (generate_seeds (fun _ => (0, 0)) 3).1.map point.seed
          = (List.range 3).map (fun i => i + 1)
      ∧ (∀ s ∈ (generate_seeds (fun _ => (0, 0)) 3).1, (0 : Int) ≤ (s.seed : Int))
      ∧ List.Pairwise (fun a b => a < b)
          ((generate_seeds (fun _ => (0, 0)) 3).1.map point.seed)
      ∧ ((generate_seeds (fun _ => (0, 0)) 3).1.map point.seed).Nodup) :=
  ⟨by decide, gen_seed_identifiers_ascending (fun _ => (0, 0)) 3 (by decide)⟩

/-- C5. The colour of a seed cell against the seed its cell record names.

First input, the constants of the source (`w = h = 64`, `n_seed = 8`) with the seeds on the
diagonal, the first one black and the others grey. The position `(1, 1)` holds only the
seed with identifier `2`, `{seed = 2, x = 1, y = 1}`. Its cell record is
`{seed = 1, x = 1, y = 1}`: not the record of that seed, and the only seed with the
identifier `1` that the record names is the black seed at `(0, 0)`, while the colour-map
entry of `(1, 1)` is grey.

Second input, the 2x3 grid with seeds at `(0, 2)`, `(0, 2)`, `(1, 0)`, the last one grey
and the others black. The position `(0, 2)` is shared by the first two seeds; its cell
record and its colour-map entry are those written for the third seed, which lies at
`(1, 0)`, not those of the last-generated seed at `(0, 2)`. -/
theorem seed_cell_colour_not_of_named_seed :
    (∃ st p c s0 s1 c0,
        main_init 64 64 (8 : Nat) (fun k => if k = 0 then (0, 0, 0) else (1 / 2, 1 / 2, 1 / 2))
          (fun k => ((k : Int), (k : Int))) = .ok st
        ∧ cell st.seeds 1 = some s1 ∧ s1 = { seed := 2, x := 1, y := 1 }
        ∧ (∀ i : Nat, i < 8 → i ≠ 1 →
            (fun k => ((k : Int), (k : Int)) : Nat → Int × Int) i ≠ (1, 1))
        ∧ cell st.map (1 * 64 + 1) = some p ∧ p = { seed := 1, x := 1, y := 1 } ∧ p ≠ s1
        ∧ cell st.seeds 0 = some s0 ∧ s0 = { seed := 1, x := 0, y := 0 }
        ∧ s0.seed = p.seed
        ∧ (∀ (i : Nat) (s : point), cell st.seeds (i : Int) = some s → s.seed = p.seed → i = 0)
        ∧ cell st.seed_colors 0 = some c0 ∧ c0 = { r := 0, g := 0, b := 0, a := 1 }
        ∧ cell st.colormap (1 * 64 + 1) = some c ∧ c = { r := 1 / 2, g := 1 / 2, b := 1 / 2, a := 1 }
        ∧ cell st.seed_colors 1 = some c
        ∧ c ≠ c0)
    ∧ (∃ st,
        main_init 2 3 (3 : Nat) (fun k => if k = 2 then (1 / 2, 1 / 2, 1 / 2) else (0, 0, 0))
          (fun k => if k = 2 then (1, 0) else (0, 2)) = .ok st
        ∧ cell st.seeds 0 = some { seed := 1, x := 0, y := 2 }
        ∧ cell st.seeds 1 = some { seed := 2, x := 0, y := 2 }
        ∧ cell st.seeds 2 = some { seed := 3, x := 1, y := 0 }
        ∧ cell st.seed_colors 1 = some { r := 0, g := 0, b := 0, a := 1 }
        ∧ cell st.seed_colors 2 = some { r := 1 / 2, g := 1 / 2, b := 1 / 2, a := 1 }
        ∧ cell st.map (0 * 2 + 2) = some { seed := 2, x := 1, y := 0 }
        ∧ cell st.colormap (0 * 2 + 2) = some { r := 1 / 2, g := 1 / 2, b := 1 / 2, a := 1 }) := by
  constructor
  · obtain ⟨st, hrun, hseeds, hcols, _, _, _, _, hlast⟩ :=
      main_init_square 64 8 (fun k => if k = 0 then (0, 0, 0) else (1 / 2, 1 / 2, 1 / 2))
        (fun k => ((k : Int), (k : Int))) (by decide) (by decide) (by decide)
    obtain ⟨hm, hc⟩ := hlast 1 (by decide)
      (fun i2 h1 h2 => by interval_cases i2 <;> decide)
    have hgrey : ({ r := 1 / 2, g := 1 / 2, b := 1 / 2, a := 1 } : color)
        ≠ { r := 0, g := 0, b := 0, a := 1 } := by
      intro h
      have hr := congrArg color.r h
      norm_num at hr
    refine ⟨st, { seed := 1, x := 1, y := 1 }, { r := 1 / 2, g := 1 / 2, b := 1 / 2, a := 1 },
      { seed := 1, x := 0, y := 0 }, { seed := 2, x := 1, y := 1 },
      { r := 0, g := 0, b := 0, a := 1 }, hrun, ?_, rfl, ?_, hm, rfl, by decide, ?_, rfl, rfl,
      ?_, ?_, rfl, hc, rfl, ?_, hgrey⟩
    · rw [hseeds]
      exact generate_seeds_cell _ 8 1 (by decide)
    · intro i hi hne
      interval_cases i <;> first | exact absurd rfl hne | decide
    · rw [hseeds]
      exact generate_seeds_cell _ 8 0 (by decide)
    · intro i s hs hid
      rw [hseeds] at hs
      by_cases hi : i < 8
      · rw [generate_seeds_cell _ 8 i hi] at hs
        have hs2 := Option.some.inj hs
        rw [← hs2] at hid
        have hi2 := seed_identifier i (by unfold INT_MAX; omega)
        have hid2 : (((i : Int) + 1) % 4294967296).toNat = 1 := hid
        omega
      · exfalso
        have hnone : cell (generate_seeds (fun k => ((k : Int), (k : Int))) 8).1 (i : Int)
            = none := by
          simp [cell, generate_seeds_length]
          omega
        rw [hnone] at hs
        cases hs
    · rw [hcols]
      exact generate_colors_cell _ 8 0 (by decide)
    · rw [hcols]
      exact generate_colors_cell _ 8 1 (by decide)
  · exact ⟨_, rfl, rfl, rfl, rfl, rfl, rfl, rfl, rfl⟩

/-- C6, counterexample. On the 1x1 grid without seeds the only cell has no seed, and its
alpha is `1.0` in the colour map and `255` in the 8-bit image, not `0`. -/
theorem background_alpha_not_zero :
    ∃ st c q, main_init 1 1 (0 : Nat) (fun _ => (0, 0, 0)) (fun _ => (0, 0)) = .ok st
      ∧ cell st.colormap 0 = some c ∧ c.a = 1 ∧ c.a ≠ 0
      ∧ cell st.output_img 0 = some q ∧ q.a = 255 ∧ q.a ≠ 0 := by
  obtain ⟨st, hrun, _, _, _, _, himg, hfree, _⟩ :=
    main_init_square 1 0 (fun _ => (0, 0, 0)) (fun _ => (0, 0)) (by decide) (by decide)
      (fun i hi => absurd hi (by omega))
  obtain ⟨_, hc⟩ := hfree 0 0 (by decide) (by decide) (by decide) (by decide)
    (fun i hi => absurd hi (by omega))
  have hc0 : cell st.colormap 0 = some { r := 0, g := 0, b := 0, a := 1 } := hc
  refine ⟨st, { r := 0, g := 0, b := 0, a := 1 }, { r := 0, g := 0, b := 0, a := 255 }, hrun,
    hc0, rfl, by norm_num, ?_, rfl, by decide⟩
  rw [himg, cell_map, hc0]
  exact congrArg some to_rawcolor_background

/-- C6, amended. On every square grid, every cell whose position holds no seed is opaque
black: `r = g = b = 0` with alpha `1.0` in the colour map, and `(0, 0, 0, 255)` in the
8-bit image. -/
theorem background_is_opaque_black (w : Int) (n : Nat) (rnd_color : Nat → ℚ × ℚ × ℚ)
    (rnd_point : Nat → Int × Int) (hw : 0 < w) (hfit : w * w ≤ INT_MAX)
    (hpos : ∀ i : Nat, i < n →
      0 ≤ (rnd_point i).1 ∧ (rnd_point i).1 < w ∧ 0 ≤ (rnd_point i).2 ∧ (rnd_point i).2 < w) :
    ∃ st, main_init w w n rnd_color rnd_point = .ok st
      ∧ ∀ x y : Int, 0 ≤ x → x < w → 0 ≤ y → y < w →
          (∀ i : Nat, i < n → rnd_point i ≠ (x, y)) →
          cell st.colormap (x * w + y) = some { r := 0, g := 0, b := 0, a := 1 }
            ∧ cell st.output_img (x * w + y) = some { r := 0, g := 0, b := 0, a := 255 } := by
  obtain ⟨st, hrun, _, _, _, _, himg, hfree, _⟩ :=
    main_init_square w n rnd_color rnd_point hw hfit hpos
  refine ⟨st, hrun, fun x y hx0 hx hy0 hy hno => ?_⟩
  obtain ⟨_, hc⟩ := hfree x y hx0 hx hy0 hy hno
  refine ⟨hc, ?_⟩
  rw [himg, cell_map, hc]
  exact congrArg some to_rawcolor_background

/-- Instance of `background_is_opaque_black`: the 2x2 grid with one seed at `(1, 1)`. -/
theorem background_is_opaque_black_witness :
    ((0 : Int) < 2 ∧ (2 : Int) * 2 ≤ INT_MAX
      ∧ ∀ i : Nat, i < 1 → (0 : Int) ≤ ((fun _ => (1, 1) : Nat → Int × Int) i).1
          ∧ ((fun _ => (1, 1) : Nat → Int × Int) i).1 < 2
          ∧ (0 : Int) ≤ ((fun _ => (1, 1) : Nat → Int × Int) i).2
          ∧ ((fun _ => (1, 1) : Nat → Int × Int) i).2 < 2)
    ∧ ∃ st, main_init 2 2 (1 : Nat) (fun _ => (1, 0, 0)) (fun _ => (1, 1)) = .ok st
      ∧ ∀ x y : Int, 0 ≤ x → x < 2 → 0 ≤ y → y < 2 →
          (∀ i : Nat, i < 1 → (fun _ => (1, 1) : Nat → Int × Int) i ≠ (x, y)) →
          cell st.colormap (x * 2 + y) = some { r := 0, g := 0, b := 0, a := 1 }
            ∧ cell st.output_img (x * 2 + y) = some { r := 0, g := 0, b := 0, a := 255 } :=
  ⟨⟨by decide, by decide, by decide⟩,
   background_is_opaque_black 2 1 (fun _ => (1, 0, 0)) (fun _ => (1, 1)) (by decide)
     (by decide) (by decide)⟩

theorem to_rawcolor_white :
    to_rawcolor (gen_color (1, 1, 1)) = { r := 255, g := 255, b := 255, a := 255 } := by
  simp [to_rawcolor, to_uchar, gen_color]

/-- C7, counterexample. On the 2x2 grid with one white seed at `(x, y) = (1, 0)`, the entry
at index `y*width + x = 1` of the serialised buffer is black; the colour of the seed is at
index `x*width + y = 2`. -/
theorem seed_colour_not_at_row_major_index :
    ∃ st, main_init 2 2 (1 : Nat) (fun _ => (1, 1, 1)) (fun _ => (1, 0)) = .ok st
      ∧ cell st.seeds 0 = some { seed := 1, x := 1, y := 0 }
      ∧ to_rawcolor (gen_color (1, 1, 1)) = { r := 255, g := 255, b := 255, a := 255 }
      ∧ cell st.output_img (0 * 2 + 1) = some { r := 0, g := 0, b := 0, a := 255 }
      ∧ cell st.output_img (1 * 2 + 0) = some { r := 255, g := 255, b := 255, a := 255 } := by
  obtain ⟨st, hrun, hseeds, _, _, _, himg, hfree, hlast⟩ :=
    main_init_square 2 1 (fun _ => (1, 1, 1)) (fun _ => (1, 0)) (by decide) (by decide)
      (by decide)
  obtain ⟨_, hc⟩ := hfree 0 1 (by decide) (by decide) (by decide) (by decide) (by decide)
  obtain ⟨_, hs⟩ := hlast 0 (by decide) (fun i2 h1 h2 => absurd h2 (by omega))
  refine ⟨st, hrun, ?_, to_rawcolor_white, ?_, ?_⟩
  · rw [hseeds]
    rfl
  · rw [himg, cell_map, hc]
    exact congrArg some to_rawcolor_background
  · rw [himg, cell_map]
    have hs2 : cell st.colormap (1 * 2 + 0) = some (gen_color (1, 1, 1)) := hs
    rw [hs2]
    exact congrArg some to_rawcolor_white

/-- C7, amended. On every square grid the serialised buffer has exactly `width*height`
entries, entry `j` is the 8-bit conversion of colour-map entry `j`, and the entry of the
cell `(x, y)` is at index `x*width + y`: the colour of a seed at `(x, y)` that no later seed
overwrites is written there, and a cell without a seed has `(0, 0, 0, 255)` there. -/
theorem output_entry_at_x_times_width_plus_y (w : Int) (n : Nat)
    (rnd_color : Nat → ℚ × ℚ × ℚ) (rnd_point : Nat → Int × Int) (hw : 0 < w)
    (hfit : w * w ≤ INT_MAX)
    (hpos : ∀ i : Nat, i < n →
      0 ≤ (rnd_point i).1 ∧ (rnd_point i).1 < w ∧ 0 ≤ (rnd_point i).2 ∧ (rnd_point i).2 < w) :
    ∃ st, main_init w w n rnd_color rnd_point = .ok st
      ∧ (st.output_img.length : Int) = w * w
      ∧ (∀ j : Int, cell st.output_img j = (cell st.colormap j).map to_rawcolor)
      ∧ (∀ i : Nat, i < n →
            (∀ i2 : Nat, i < i2 → i2 < n → rnd_point i2 ≠ rnd_point i) →
            cell st.output_img ((rnd_point i).1 * w + (rnd_point i).2)
              = some (to_rawcolor (gen_color (rnd_color i))))
      ∧ (∀ x y : Int, 0 ≤ x → x < w → 0 ≤ y → y < w →
            (∀ i : Nat, i < n → rnd_point i ≠ (x, y)) →
            cell st.output_img (x * w + y) = some { r := 0, g := 0, b := 0, a := 255 }) := by
  obtain ⟨st, hrun, _, _, _, hlen, himg, hfree, hlast⟩ :=
    main_init_square w n rnd_color rnd_point hw hfit hpos
  have hww : 0 ≤ w * w := by nlinarith
  refine ⟨st, hrun, ?_, ?_, ?_, ?_⟩
  · rw [himg, List.length_map, hlen]
    exact Int.toNat_of_nonneg hww
  · intro j
    rw [himg, cell_map]
  · intro i hi hlater
    obtain ⟨_, hc⟩ := hlast i hi hlater
    rw [himg, cell_map, hc]
    rfl
  · intro x y hx0 hx hy0 hy hno
    obtain ⟨_, hc⟩ := hfree x y hx0 hx hy0 hy hno
    rw [himg, cell_map, hc]
    exact congrArg some to_rawcolor_background

/-- Instance of `output_entry_at_x_times_width_plus_y`: the 2x2 grid with one seed at
`(1, 0)`. -/
theorem output_entry_at_x_times_width_plus_y_witness :
    ((0 : Int) < 2 ∧ (2 : Int) * 2 ≤ INT_MAX
      ∧ ∀ i : Nat, i < 1 → (0 : Int) ≤ ((fun _ => (1, 0) : Nat → Int × Int) i).1
          ∧ ((fun _ => (1, 0) : Nat → Int × Int) i).1 < 2
          ∧ (0 : Int) ≤ ((fun _ => (1, 0) : Nat → Int × Int) i).2
          ∧ ((fun _ => (1, 0) : Nat → Int × Int) i).2 < 2)
    ∧ ∃ st, main_init 2 2 (1 : Nat) (fun _ => (1, 1, 1)) (fun _ => (1, 0)) = .ok st
      ∧ (st.output_img.length : Int) = 2 * 2
      ∧ (∀ j : Int, cell st.output_img j = (cell st.colormap j).map to_rawcolor)
      ∧ (∀ i : Nat, i < 1 →
            (∀ i2 : Nat, i < i2 → i2 < 1 →
              (fun _ => (1, 0) : Nat → Int × Int) i2 ≠ (fun _ => (1, 0) : Nat → Int × Int) i) →
            cell st.output_img (((fun _ => (1, 0) : Nat → Int × Int) i).1 * 2
                + ((fun _ => (1, 0) : Nat → Int × Int) i).2)
              = some (to_rawcolor (gen_color ((fun _ => (1, 1, 1) : Nat → ℚ × ℚ × ℚ) i))))
      ∧ (∀ x y : Int, 0 ≤ x → x < 2 → 0 ≤ y → y < 2 →
            (∀ i : Nat, i < 1 → (fun _ => (1, 0) : Nat → Int × Int) i ≠ (x, y)) →
            cell st.output_img (x * 2 + y) = some { r := 0, g := 0, b := 0, a := 255 }) :=
  ⟨⟨by decide, by decide, by decide⟩,
   output_entry_at_x_times_width_plus_y 2 1 (fun _ => (1, 1, 1)) (fun _ => (1, 0))
     (by decide) (by decide) (by decide)⟩

theorem cell_index_ne_length_error (w x y : Int) :
    cell_index w x y ≠ .error .length_error :=
  bind_ne_length_error _ _ (int_checked_ne_length_error _)
    (fun _ => int_checked_ne_length_error _)

theorem fill_cell_ne_length_error (w : Int) (row_i col_i : Nat) (colormap : List color) :
    fill_cell w row_i col_i colormap ≠ .error .length_error :=
  bind_ne_length_error _ _ (cell_index_ne_length_error _ _ _) fun _ =>
  bind_ne_length_error _ _ (store_ne_length_error _ _ _) fun _ =>
  bind_ne_length_error _ _ (store_ne_length_error _ _ _) fun _ =>
  bind_ne_length_error _ _ (store_ne_length_error _ _ _) fun _ =>
  store_ne_length_error _ _ _

theorem place_seed_ne_length_error (w : Int) (seeds : List point) (seed_colors : List color)
    (seed : Nat) (st : List point × List color) :
    place_seed w seeds seed_colors seed st ≠ .error .length_error :=
  bind_ne_length_error _ _ (load_ne_length_error _ _) fun _ =>
  bind_ne_length_error _ _ (cell_index_ne_length_error _ _ _) fun _ =>
  bind_ne_length_error _ _ (store_ne_length_error _ _ _) fun _ =>
  bind_ne_length_error _ _ (store_ne_length_error _ _ _) fun _ =>
  bind_ne_length_error _ _ (store_ne_length_error _ _ _) fun _ =>
  bind_ne_length_error _ _ (load_ne_length_error _ _) fun _ =>
  bind_ne_length_error _ _ (store_ne_length_error _ _ _) fun _ =>
  bind_ne_length_error _ _ (store_ne_length_error _ _ _) fun _ =>
  bind_ne_length_error _ _ (store_ne_length_error _ _ _) fun _ =>
  bind_ne_length_error _ _ (store_ne_length_error _ _ _) fun _ => by
    simp [pure, Except.pure]

theorem main_alloc_length_error (w h n_seed : Int) (hlo : INT_MIN ≤ w * h)
    (hhi : w * h ≤ INT_MAX) (hneg : w * h < 0 ∨ n_seed < 0) :
    main_alloc w h n_seed = .error .length_error := by
  unfold main_alloc
  rw [int_checked_ok (w * h) hlo hhi]
  show (vector_alloc (w * h) _ >>= _) = _
  by_cases hwh : w * h < 0
  · simp [vector_alloc, hwh]
    rfl
  · rw [vector_alloc_ok _ _ (by omega)]
    have hn : n_seed < 0 := by
      rcases hneg with h1 | h1
      · exact absurd h1 hwh
      · exact h1
    show (vector_alloc n_seed _ >>= _) = _
    simp [vector_alloc, hn]
    rfl

theorem main_init_after_alloc (w h n_seed : Int) (rnd_color : Nat → ℚ × ℚ × ℚ)
    (rnd_point : Nat → Int × Int) (st : host) (hst : main_alloc w h n_seed = .ok st) :
    main_init w h n_seed rnd_color rnd_point ≠ .error .length_error := by
  unfold main_init
  rw [hst]
  show (if ¬ ((0 : Int) ≤ w - 1 ∧ (0 : Int) ≤ h - 1) then _ else _) ≠ _
  split
  · simp
  · exact bind_ne_length_error _ _
      (for_loop_ne_length_error _
        (fun row_i cm => for_loop_ne_length_error (fun col_i cm2 => fill_cell w row_i col_i cm2)
          (fun col_i cm2 => fill_cell_ne_length_error w row_i col_i cm2) _ cm)
        _ _)
      fun _ => bind_ne_length_error _ _
        (for_loop_ne_length_error _ (fun _ _ => place_seed_ne_length_error _ _ _ _ _) _ _)
        fun _ => by simp [pure, Except.pure]

/-- C8, counterexample. The configuration `width = height = 1`, `n_seed = 0` is not
rejected: the host initialises its buffers and builds the one-pixel image. -/
theorem zero_seeds_not_rejected :
    (0 : Int) ≤ 0
    ∧ main_init 1 1 0 (fun _ => (0, 0, 0)) (fun _ => (0, 0))
      = .ok { map := [{ seed := 0, x := 0, y := 0 }], seeds := [], seed_colors := [],
              colormap := [{ r := 0, g := 0, b := 0, a := 1 }],
              output_img := [to_rawcolor { r := 0, g := 0, b := 0, a := 1 }] } :=
  ⟨le_refl 0, rfl⟩

/-- C8, amended. The host checks no configuration. It stops with a reported error (the
length error of the vector constructor), before it fills a buffer or builds an image,
exactly when a buffer size is negative: `width*height < 0` or `n_seed < 0`. A configuration
with `width = height > 0` and any `n_seed ≥ 0`, zero included, is not rejected: all buffers
are initialised and the image is built. -/
theorem host_stops_only_on_negative_sizes (w h n_seed : Int) (rnd_color : Nat → ℚ × ℚ × ℚ)
    (rnd_point : Nat → Int × Int) (hlo : INT_MIN ≤ w * h) (hhi : w * h ≤ INT_MAX) :
    (main_init w h n_seed rnd_color rnd_point = .error .length_error
        ↔ (w * h < 0 ∨ n_seed < 0))
    ∧ (0 < w → h = w → 0 ≤ n_seed →
        (∀ i : Nat, i < n_seed.toNat →
          0 ≤ (rnd_point i).1 ∧ (rnd_point i).1 < w
            ∧ 0 ≤ (rnd_point i).2 ∧ (rnd_point i).2 < w) →
        ∃ st, main_init w h n_seed rnd_color rnd_point = .ok st
          ∧ (st.map.length : Int) = w * h ∧ (st.colormap.length : Int) = w * h
          ∧ (st.output_img.length : Int) = w * h
          ∧ (st.seeds.length : Int) = n_seed ∧ (st.seed_colors.length : Int) = n_seed) := by
  constructor
  · constructor
    · intro herr
      by_contra hnot
      have h1 : 0 ≤ w * h := by omega
      have h2 : 0 ≤ n_seed := by omega
      exact main_init_after_alloc w h n_seed rnd_color rnd_point _
        (main_alloc_ok w h n_seed h1 hhi h2) herr
    · intro hneg
      unfold main_init
      rw [main_alloc_length_error w h n_seed hlo hhi hneg]
      rfl
  · intro hw hh hn hpos
    rw [hh] at hhi ⊢
    obtain ⟨n, rfl⟩ := Int.eq_ofNat_of_zero_le hn
    obtain ⟨st, hrun, hseeds, hcols, hl1, hl2, himg, _, _⟩ :=
      main_init_square w n rnd_color rnd_point hw hhi (fun i hi => hpos i (by simpa using hi))
    have hww : 0 ≤ w * w := by nlinarith
    refine ⟨st, hrun, ?_, ?_, ?_, ?_, ?_⟩
    · rw [hl1]
      exact Int.toNat_of_nonneg hww
    · rw [hl2]
      exact Int.toNat_of_nonneg hww
    · rw [himg, List.length_map, hl2]
      exact Int.toNat_of_nonneg hww
    · rw [hseeds, generate_seeds_length]
    · rw [hcols, generate_colors_length]

/-- Instance of `host_stops_only_on_negative_sizes`: `width = height = 2`, `n_seed = 0`. -/
theorem host_stops_only_on_negative_sizes_witness :
    (INT_MIN ≤ (2 : Int) * 2 ∧ (2 : Int) * 2 ≤ INT_MAX ∧ (0 : Int) < 2 ∧ (0 : Int) ≤ 0)
    ∧ ∃ st, main_init 2 2 0 (fun _ => (0, 0, 0)) (fun _ => (0, 0)) = .ok st
          ∧ (st.map.length : Int) = 2 * 2 ∧ (st.colormap.length : Int) = 2 * 2
          ∧ (st.output_img.length : Int) = 2 * 2
          ∧ (st.seeds.length : Int) = 0 ∧ (st.seed_colors.length : Int) = 0 :=
  ⟨⟨by decide, by decide, by decide, by decide⟩,
   (host_stops_only_on_negative_sizes 2 2 0 (fun _ => (0, 0, 0)) (fun _ => (0, 0))
      (by decide) (by decide)).2 (by decide) rfl (by decide)
      (fun i hi => absurd hi (by simp))⟩

theorem passes_append (tr1 tr2 : List cl_call) :
    passes (tr1 ++ tr2) = passes tr1 ++ passes tr2 := by
  simp [passes, List.filterMap_append]

theorem device_loop_passes (b : backend) (i : Nat) (tr : List cl_call) :
    passes (device_loop b i tr).1 = passes tr := by
  induction i with
  | zero => rfl
  | succ k ih =>
    have e1 : passes [cl_call.clGetDeviceIDs] = [] := rfl
    have e2 : passes [cl_call.clGetDeviceIDs, cl_call.clGetDeviceIDs] = [] := rfl
    simp only [device_loop]
    split_ifs <;> simp only [passes_append, ih, e1, e2, List.append_nil]

theorem checked_call_passes (b : backend) (c : cl_call) (tr : List cl_call)
    (next : List cl_call → outcome) (htr : passes tr = []) (hc : passes [c] = [])
    (hnext : ∀ tr2, passes tr2 = [] → passes (next tr2).1 = []) :
    passes (checked_call b c tr next).1 = [] := by
  have hnew : passes (tr ++ [c]) = [] := by rw [passes_append, htr, hc]; rfl
  unfold checked_call
  split
  · exact hnew
  · exact hnext _ hnew

/-- The OpenCL part of `main` dispatches no kernel, whatever the runtime answers. -/
theorem main_opencl_passes (b : backend) : passes (main_opencl b).1 = [] := by
  unfold main_opencl
  refine checked_call_passes b _ _ _ rfl rfl (fun tr0 h0 => ?_)
  refine checked_call_passes b _ _ _ h0 rfl (fun tr1 h1 => ?_)
  have hloop : passes (device_loop b b.numPlatforms tr1).1 = [] := by
    rw [device_loop_passes, h1]
  show passes (Prod.fst (if (device_loop b b.numPlatforms tr1).2 = false then _ else _)) = []
  split
  · exact hloop
  · split
    · exact hloop
    · refine checked_call_passes b _ _ _ hloop rfl (fun tr2 h2 => ?_)
      refine checked_call_passes b _ _ _ h2 rfl (fun tr3 h3 => ?_)
      refine checked_call_passes b _ _ _ h3 rfl (fun tr4 h4 => ?_)
      refine checked_call_passes b _ _ _ h4 rfl (fun tr5 h5 => ?_)
      refine checked_call_passes b _ _ _ h5 rfl (fun tr6 h6 => ?_)
      refine checked_call_passes b _ _ _ h6 rfl (fun tr7 h7 => ?_)
      refine checked_call_passes b _ _ _ h7 rfl (fun tr8 h8 => ?_)
      split
      · rw [passes_append, h8]
        rfl
      · have h9 : passes (tr8 ++ [cl_call.clBuildProgram]) = [] := by
          rw [passes_append, h8]
          rfl
        refine checked_call_passes b _ _ _ h9 rfl (fun tr9 h10 => ?_)
        show passes (tr9 ++ _) = []
        rw [passes_append, h10]
        rfl

/-- C9, counterexample. For the 4x4 grid with the seeds at `(0, 0)` and `(3, 3)` and an
OpenCL runtime on which every call succeeds, `main` returns `0` and has executed no pass:
not the two passes of a schedule `{2, 1}`. -/
theorem no_pass_on_4x4_grid :
    (main 4 4 2 (fun _ => (0, 0, 0)) (fun k => if k = 0 then (0, 0) else (3, 3))
        { numPlatforms := 1, numDevices := fun _ => 1, status := fun _ => 0 }).2 = .ok 0
    ∧ passes (main 4 4 2 (fun _ => (0, 0, 0)) (fun k => if k = 0 then (0, 0) else (3, 3))
        { numPlatforms := 1, numDevices := fun _ => 1, status := fun _ => 0 }).1 = []
    ∧ (passes (main 4 4 2 (fun _ => (0, 0, 0)) (fun k => if k = 0 then (0, 0) else (3, 3))
        { numPlatforms := 1, numDevices := fun _ => 1, status := fun _ => 0 }).1).length
        ≠ 2 := by
  refine ⟨rfl, rfl, by decide⟩

/-- C9, amended. For every width, height, seed count and every behaviour of the OpenCL
runtime, `main` executes no propagation pass: the kernel `jump_flood` is created and
released without a dispatch, so the sequence of executed steps is empty. -/
theorem main_executes_no_pass (w h n_seed : Int) (rnd_color : Nat → ℚ × ℚ × ℚ)
    (rnd_point : Nat → Int × Int) (b : backend) :
    passes (main w h n_seed rnd_color rnd_point b).1 = [] := by
  unfold main
  split
  · rfl
  · exact main_opencl_passes b

end jump_flood

/-! ## scalar_prod: the chunked dot product -/

namespace scalar_prod

theorem cell_getD (A : List ℚ) (i : Nat) (h : i < A.length) :
    cell A (i : Int) = some (A.getD i 0) := by
  simp [cell, List.getD_eq_getElem?_getD, List.getElem?_eq_getElem h]

/-- A summation loop whose reads stay inside both vectors returns the sum of the
products. -/
theorem dot_loop_ok (A B : List ℚ) (f : Nat → Int) (g : Nat → Nat) (m : Nat)
    (hf : ∀ j, j < m → f j = (g j : Int))
    (hA : ∀ j, j < m → g j < A.length) (hB : ∀ j, j < m → g j < B.length) :
    for_loop (fun j sum => do
        let a ← load A (f j)
        let b ← load B (f j)
        pure (sum + a * b)) m 0
      = .ok (∑ j ∈ Finset.range m, A.getD (g j) 0 * B.getD (g j) 0) := by
  induction m with
  | zero => rfl
  | succ k ih =>
    rw [for_loop_succ, ih (fun j hj => hf j (by omega)) (fun j hj => hA j (by omega))
      (fun j hj => hB j (by omega))]
    show (load A (f k) >>= _) = _
    rw [hf k (by omega), load_ok A _ _ (cell_getD A (g k) (hA k (by omega)))]
    show (load B _ >>= _) = _
    rw [load_ok B _ _ (cell_getD B (g k) (hB k (by omega))), Finset.sum_range_succ]
    rfl

theorem cpu_scalar_prod_naive_ok (A B : List ℚ) (size : Nat) (hA : size ≤ A.length)
    (hB : size ≤ B.length) :
    cpu_scalar_prod_naive A B size
      = .ok (∑ i ∈ Finset.range size, A.getD i 0 * B.getD i 0) := by
  unfold cpu_scalar_prod_naive
  rw [Int.toNat_ofNat]
  exact dot_loop_ok A B (fun i => (i : Int)) (fun i => i) size (fun _ _ => rfl)
    (fun j hj => Nat.lt_of_lt_of_le hj hA) (fun j hj => Nat.lt_of_lt_of_le hj hB)

theorem cpu_scalar_prod_elementary_ok (A B : List ℚ) (s e : Nat) (hse : s ≤ e)
    (hA : e ≤ A.length) (hB : e ≤ B.length) :
    cpu_scalar_prod_elementary A B s e
      = .ok (∑ j ∈ Finset.range (e - s), A.getD (s + j) 0 * B.getD (s + j) 0) := by
  unfold cpu_scalar_prod_elementary
  have hcount : ((e : Int) - (s : Int)).toNat = e - s := by omega
  rw [hcount]
  exact dot_loop_ok A B (fun j => (s : Int) + (j : Int)) (fun j => s + j) (e - s)
    (fun j _ => by push_cast; rfl) (fun j hj => by show s + j < A.length; omega)
    (fun j hj => by show s + j < B.length; omega)

theorem chunk_start_le (n size k : Nat) : k * size / n ≤ (k + 1) * size / n :=
  Nat.div_le_div_right (Nat.mul_le_mul_right size (Nat.le_succ k))

theorem chunk_mono (n size : Nat) {k k2 : Nat} (h : k ≤ k2) : k * size / n ≤ k2 * size / n :=
  Nat.div_le_div_right (Nat.mul_le_mul_right size h)

theorem chunk_end_le (n size k : Nat) (hn : 1 ≤ n) (hk : k < n) : (k + 1) * size / n ≤ size := by
  calc (k + 1) * size / n ≤ n * size / n := chunk_mono n size (by omega)
    _ = size := Nat.mul_div_cancel_left size (by omega)

/-- Bounds of chunk `k < n` when `n*size` fits the `int` range. -/
theorem chunk_ok (n size k : Nat) (hk : k < n) (hn : (n : Int) ≤ INT_MAX)
    (hfit : (n : Int) * size ≤ INT_MAX) :
    chunk n size k = .ok (((k * size / n : Nat) : Int), (((k + 1) * size / n : Nat) : Int)) := by
  have hmin : INT_MIN ≤ 0 := by decide
  have h1 : (k : Int) * size ≤ (n : Int) * size := by
    have : k * size ≤ n * size := Nat.mul_le_mul_right size (by omega)
    exact_mod_cast this
  have h2 : ((k : Int) + 1) * size ≤ (n : Int) * size := by
    have : (k + 1) * size ≤ n * size := Nat.mul_le_mul_right size (by omega)
    exact_mod_cast this
  have h3 : (0 : Int) ≤ (k : Int) * size := by positivity
  have h4 : (0 : Int) ≤ ((k : Int) + 1) * size := by positivity
  have hn0 : (n : Int) ≠ 0 := by omega
  have e1 := int_checked_ok ((k : Int) * size) (by omega) (by omega)
  have e2 := int_checked_ok ((k : Int) + 1) (by omega) (by omega)
  have e3 := int_checked_ok (((k : Int) + 1) * size) (by omega) (by omega)
  simp only [chunk, e1, e2, e3, except_bind_ok, if_neg hn0]
  show Except.ok (Int.tdiv ((k : Int) * size) n, Int.tdiv (((k : Int) + 1) * size) n) = _
  rw [Int.tdiv_eq_ediv h3 (by positivity), Int.tdiv_eq_ediv h4 (by positivity)]
  push_cast
  rfl

theorem to_int_of_le (v : Nat) (h : (v : Int) ≤ INT_MAX) : to_int v = v := by
  unfold INT_MAX at h
  unfold to_int
  omega

theorem accumulate_append (l1 l2 : List (Except fault ℚ)) (acc : ℚ) :
    accumulate (l1 ++ l2) acc = accumulate l1 acc >>= accumulate l2 := by
  induction l1 generalizing acc with
  | nil => rfl
  | cons f fs ih =>
    cases f with
    | error e => rfl
    | ok v => exact ih (acc + v)

theorem accumulate_range (p : Nat → ℚ) (n : Nat) :
    accumulate ((List.range n).map (fun k => (Except.ok (p k) : Except fault ℚ))) 0
      = .ok (∑ k ∈ Finset.range n, p k) := by
  induction n with
  | zero => rfl
  | succ m ih =>
    rw [List.range_succ, List.map_append, accumulate_append, ih, Finset.sum_range_succ]
    rfl

/-- The sums over the first `k` chunks add up to the sum over `[0, k*size/n)`. -/
theorem chunk_sums (f : Nat → ℚ) (n size : Nat) (k : Nat) :
    ∑ j ∈ Finset.range k,
        ∑ i ∈ Finset.range ((j + 1) * size / n - j * size / n), f (j * size / n + i)
      = ∑ i ∈ Finset.range (k * size / n), f i := by
  induction k with
  | zero => simp
  | succ m ih =>
    rw [Finset.sum_range_succ, ih]
    have hle := chunk_start_le n size m
    have hsplit : (m + 1) * size / n = m * size / n + ((m + 1) * size / n - m * size / n) := by
      omega
    conv_rhs => rw [hsplit]
    rw [Finset.sum_range_add]

/-- Launch loop after `k` iterations: `futures[j]` holds the task of chunk `j` for
every `j < k`. -/
theorem futures_loop_ok (n size : Nat) (A B : List ℚ) (hA : A.length = size)
    (hn : (n : Int) ≤ INT_MAX) (hfit : (n : Int) * size ≤ INT_MAX) (hs : (size : Int) ≤ INT_MAX)
    (k : Nat) (hk : k ≤ n) (fs0 : List (Except fault ℚ)) (hlen : fs0.length = n) :
    ∃ fs, for_loop (fun k fs => do
          let size := to_int A.length
          let bounds ← chunk n size k
          store fs k (fun _ => cpu_scalar_prod_elementary A B bounds.1 bounds.2)) k fs0 = .ok fs
      ∧ fs.length = n
      ∧ ∀ j, j < k → fs[j]? = some (cpu_scalar_prod_elementary A B
          ((j * size / n : Nat) : Int) (((j + 1) * size / n : Nat) : Int)) := by
  induction k with
  | zero => exact ⟨fs0, rfl, hlen, fun j hj => by omega⟩
  | succ m ih =>
    obtain ⟨fs, hrun, hl, hget⟩ := ih (by omega)
    have hm0 : (0 : Int) ≤ (m : Int) := by positivity
    have hm1 : (m : Int) < fs.length := by rw [hl]; exact_mod_cast (by omega : m < n)
    obtain ⟨v, hv⟩ := cell_of_lt fs (m : Int) hm0 hm1
    refine ⟨fs.set m (cpu_scalar_prod_elementary A B ((m * size / n : Nat) : Int)
        (((m + 1) * size / n : Nat) : Int)), ?_, by simp [hl], ?_⟩
    · rw [for_loop_succ, hrun]
      simp only [except_bind_ok, hA, to_int_of_le size hs,
        chunk_ok n size m (by omega) hn hfit, store_ok fs _ _ v hv, Int.toNat_ofNat]
    · intro j hj
      rw [List.getElem?_set]
      by_cases hjm : m = j
      · subst hjm
        have : m < fs.length := by omega
        simp [this]
      · rw [if_neg hjm]
        exact hget j (by omega)

/-- Every index below `size` lies in exactly one chunk. -/
theorem exists_unique_chunk (n size i : Nat) (hn : 1 ≤ n) (hi : i < size) :
    ∃! k, k < n ∧ k * size / n ≤ i ∧ i < (k + 1) * size / n := by
  have hex : ∃ k, i < (k + 1) * size / n :=
    ⟨n - 1, by
      have : n - 1 + 1 = n := by omega
      rw [this, Nat.mul_div_cancel_left size (by omega)]
      exact hi⟩
  refine ⟨Nat.find hex, ⟨?_, ?_, Nat.find_spec hex⟩, ?_⟩
  · have hle : Nat.find hex ≤ n - 1 := Nat.find_min' hex (by
      have : n - 1 + 1 = n := by omega
      rw [this, Nat.mul_div_cancel_left size (by omega)]
      exact hi)
    omega
  · rcases Nat.eq_zero_or_pos (Nat.find hex) with h0 | hpos
    · rw [h0]
      simp
    · have hprev := Nat.find_min hex (Nat.sub_lt hpos Nat.one_pos)
      have : Nat.find hex - 1 + 1 = Nat.find hex := by omega
      rw [this] at hprev
      omega
  · rintro k ⟨_, hk1, hk2⟩
    have h1 : Nat.find hex ≤ k := Nat.find_min' hex hk2
    by_contra hne
    have hlt : Nat.find hex + 1 ≤ k := by omega
    have hmono := chunk_mono n size hlt
    have := Nat.find_spec hex
    omega

/-- C10. For every thread count `n ≥ 1` (an `int`) and vectors `A`, `B` of length `size`
with `n*size` in the `int` range: chunk `k` is `[k*size/n, (k+1)*size/n)`, the chunks are
consecutive from `0` to `size`, every index below `size` lies in exactly one of them, and
`cpu_scalar_prod_parallel` returns the sum of the per-chunk sums, which is the value
`cpu_scalar_prod_naive(A, B, size)` returns: the sum of `A[i]*B[i]` over `i < size`. -/
theorem cpu_scalar_prod_parallel_eq_naive (n size : Nat) (A B : List ℚ) (N : Int)
    (hn : 1 ≤ n) (hnint : (n : Int) ≤ INT_MAX) (hA : A.length = size) (hB : B.length = size)
    (hfit : (n : Int) * size ≤ INT_MAX) :
    (∀ k, k < n →
        chunk n size k
          = .ok (((k * size / n : Nat) : Int), (((k + 1) * size / n : Nat) : Int)))
    ∧ 0 * size / n = 0 ∧ (n - 1 + 1) * size / n = size
    ∧ (∀ k, k < n → k * size / n ≤ (k + 1) * size / n)
    ∧ (∀ i, i < size → ∃! k, k < n ∧ k * size / n ≤ i ∧ i < (k + 1) * size / n)
    ∧ cpu_scalar_prod_parallel n A B N
        = .ok (∑ k ∈ Finset.range n,
            ∑ i ∈ Finset.range ((k + 1) * size / n - k * size / n),
              A.getD (k * size / n + i) 0 * B.getD (k * size / n + i) 0)
    ∧ cpu_scalar_prod_naive A B size = .ok (∑ i ∈ Finset.range size, A.getD i 0 * B.getD i 0)
    ∧ cpu_scalar_prod_parallel n A B N = cpu_scalar_prod_naive A B size := by
  have hlast : (n - 1 + 1) * size / n = size := by
    have : n - 1 + 1 = n := by omega
    rw [this, Nat.mul_div_cancel_left size (by omega)]
  have hs : (size : Int) ≤ INT_MAX := by
    have h1 : 1 * size ≤ n * size := Nat.mul_le_mul_right size hn
    have h2 : ((1 * size : Nat) : Int) ≤ ((n * size : Nat) : Int) := by exact_mod_cast h1
    push_cast at h2
    omega
  have hnaive := cpu_scalar_prod_naive_ok A B size (by omega) (by omega)
  have hpar : cpu_scalar_prod_parallel n A B N
      = .ok (∑ k ∈ Finset.range n,
          ∑ i ∈ Finset.range ((k + 1) * size / n - k * size / n),
            A.getD (k * size / n + i) 0 * B.getD (k * size / n + i) 0) := by
    obtain ⟨fs, hrun, hl, hget⟩ := futures_loop_ok n size A B hA hnint hfit hs n (le_refl n)
      (List.replicate n (Except.error fault.undefined_behaviour)) (by simp)
    have hfs : fs = (List.range n).map (fun k => (Except.ok
        (∑ i ∈ Finset.range ((k + 1) * size / n - k * size / n),
          A.getD (k * size / n + i) 0 * B.getD (k * size / n + i) 0) : Except fault ℚ)) := by
      apply List.ext_getElem?
      intro j
      by_cases hj : j < n
      · rw [hget j hj, List.getElem?_map, List.getElem?_range hj]
        have he := chunk_end_le n size j hn hj
        rw [cpu_scalar_prod_elementary_ok A B _ _ (chunk_start_le n size j) (by omega)
          (by omega)]
        rfl
      · rw [List.getElem?_eq_none (by omega), List.getElem?_eq_none (by simp; omega)]
    unfold cpu_scalar_prod_parallel
    rw [vector_alloc_ok _ _ (by positivity)]
    simp only [except_bind_ok, Int.toNat_ofNat, hrun]
    rw [hfs]
    exact accumulate_range _ n
  refine ⟨fun k hk => chunk_ok n size k hk hnint hfit, by simp, hlast,
    fun k _ => chunk_start_le n size k, fun i hi => exists_unique_chunk n size i hn hi,
    hpar, hnaive, ?_⟩
  rw [hpar, hnaive]
  have hsum := chunk_sums (fun i => A.getD i 0 * B.getD i 0) n size n
  rw [Nat.mul_div_cancel_left size (by omega : 0 < n)] at hsum
  rw [hsum]

/-- Instance of `cpu_scalar_prod_parallel_eq_naive`: three threads, vectors of length 5. -/
theorem cpu_scalar_prod_parallel_eq_naive_witness :
    (1 ≤ 3 ∧ ((3 : Nat) : Int) ≤ INT_MAX
      ∧ ([1, 2, 3, 4, 5] : List ℚ).length = 5 ∧ ([1, 1, 1, 2, 2] : List ℚ).length = 5
      ∧ ((3 : Nat) : Int) * (5 : Nat) ≤ INT_MAX)
    ∧ ((∀ k : Nat, k < 3 →
          chunk ((3 : Nat) : Int) ((5 : Nat) : Int) (k : Int)
            = .ok (((k * 5 / 3 : Nat) : Int), (((k + 1) * 5 / 3 : Nat) : Int)))
      ∧ 0 * 5 / 3 = 0 ∧ (3 - 1 + 1) * 5 / 3 = 5
      ∧ (∀ k, k < 3 → k * 5 / 3 ≤ (k + 1) * 5 / 3)
      ∧ (∀ i, i < 5 → ∃! k, k < 3 ∧ k * 5 / 3 ≤ i ∧ i < (k + 1) * 5 / 3)
      ∧ cpu_scalar_prod_parallel (3 : Nat) [1, 2, 3, 4, 5] [1, 1, 1, 2, 2] 5
          = .ok (∑ k ∈ Finset.range 3,
              ∑ i ∈ Finset.range ((k + 1) * 5 / 3 - k * 5 / 3),
                ([1, 2, 3, 4, 5] : List ℚ).getD (k * 5 / 3 + i) 0
                  * ([1, 1, 1, 2, 2] : List ℚ).getD (k * 5 / 3 + i) 0)
      ∧ cpu_scalar_prod_naive [1, 2, 3, 4, 5] [1, 1, 1, 2, 2] (5 : Nat)
          = .ok (∑ i ∈ Finset.range 5,
              ([1, 2, 3, 4, 5] : List ℚ).getD i 0 * ([1, 1, 1, 2, 2] : List ℚ).getD i 0)
      ∧ cpu_scalar_prod_parallel (3 : Nat) [1, 2, 3, 4, 5] [1, 1, 1, 2, 2] 5
          = cpu_scalar_prod_naive [1, 2, 3, 4, 5] [1, 1, 1, 2, 2] (5 : Nat)) :=
  ⟨⟨by decide, by decide, rfl, rfl, by decide⟩,
   cpu_scalar_prod_parallel_eq_naive 3 5 [1, 2, 3, 4, 5] [1, 1, 1, 2, 2] 5 (by decide)
     (by decide) rfl rfl (by decide)⟩

/-! ### Reduction sizes and passes of `gpu_scalar_prod.cpp` -/

/-- The value `actual / factor + (actual % factor == 0 ? 0 : 1)` is the least `t` with
`actual ≤ t * factor`: the ceiling of `actual / factor`. -/
theorem new_size_value_le_iff (factor actual t : Nat) (hf : 1 ≤ factor) :
    actual / factor + (if actual % factor = 0 then 0 else 1) ≤ t ↔ actual ≤ t * factor := by
  have hdm := Nat.div_add_mod actual factor
  have hr := Nat.mod_lt actual (show 0 < factor by omega)
  by_cases h0 : actual % factor = 0
  · rw [if_pos h0, Nat.add_zero]
    constructor
    · intro hq
      have : actual / factor * factor ≤ t * factor := Nat.mul_le_mul_right factor hq
      nlinarith
    · intro ha
      by_contra hlt
      have : (t + 1) * factor ≤ actual / factor * factor :=
        Nat.mul_le_mul_right factor (by omega)
      nlinarith
  · rw [if_neg h0]
    constructor
    · intro hq
      have : (actual / factor + 1) * factor ≤ t * factor := Nat.mul_le_mul_right factor hq
      nlinarith
    · intro ha
      by_contra hlt
      have : t * factor ≤ actual / factor * factor := Nat.mul_le_mul_right factor (by omega)
      have hpos : 0 < actual % factor := Nat.pos_of_ne_zero h0
      nlinarith

/-- The natural number whose upper bounds `t` are those with `a ≤ t * b` is the ceiling of
the quotient `a / b`. -/
theorem ceil_div_le_iff (a b t : Nat) (hb : 1 ≤ b) : ⌈(a : ℚ) / (b : ℚ)⌉₊ ≤ t ↔ a ≤ t * b := by
  have hbq : (0 : ℚ) < (b : ℚ) := by exact_mod_cast hb
  rw [Nat.ceil_le, div_le_iff₀ hbq]
  exact_mod_cast Iff.rfl

theorem new_size_value_eq_ceil (factor actual : Nat) (hf : 1 ≤ factor) :
    actual / factor + (if actual % factor = 0 then 0 else 1)
      = ⌈(actual : ℚ) / (factor : ℚ)⌉₊ :=
  eq_of_forall_ge_iff fun t => by
    rw [new_size_value_le_iff factor actual t hf, ceil_div_le_iff actual factor t hf]

theorem ceil_div_le_self (a b : Nat) (hb : 1 ≤ b) : ⌈(a : ℚ) / (b : ℚ)⌉₊ ≤ a := by
  rw [ceil_div_le_iff a b a hb]
  exact Nat.le_mul_of_pos_right a (by omega)

/-- With `factor ≥ 1` and `actual` a `std::size_t`, `new_size` returns the ceiling of
`actual / factor`; no intermediate value leaves the `std::size_t` range. -/
theorem new_size_ok (factor actual : Nat) (hf : 1 ≤ factor)
    (ha : actual < 18446744073709551616) :
    new_size factor actual = .ok ⌈(actual : ℚ) / (factor : ℚ)⌉₊ := by
  have hle := ceil_div_le_self actual factor hf
  unfold new_size
  rw [if_neg (by omega), new_size_value_eq_ceil factor actual hf, Nat.mod_eq_of_lt (by omega)]

/-- With `factor = 2 * wgs` a `std::size_t`, the product `new_size(actual) * wgs` stays in
the `std::size_t` range. -/
theorem global_no_overflow (wgs actual : Nat) (hw : 1 ≤ wgs)
    (hf : 2 * wgs < 18446744073709551616) (ha : actual < 18446744073709551616) :
    ⌈(actual : ℚ) / ((2 * wgs : Nat) : ℚ)⌉₊ * wgs < 18446744073709551616 := by
  have hle : ⌈(actual : ℚ) / ((2 * wgs : Nat) : ℚ)⌉₊ ≤ actual / (2 * wgs) + 1 := by
    rw [ceil_div_le_iff actual (2 * wgs) _ (by omega)]
    have := Nat.div_add_mod actual (2 * wgs)
    have := Nat.mod_lt actual (show 0 < 2 * wgs by omega)
    nlinarith
  have hdiv : actual / (2 * wgs) * (2 * wgs) ≤ actual := Nat.div_mul_le_self actual (2 * wgs)
  have hmul : ⌈(actual : ℚ) / ((2 * wgs : Nat) : ℚ)⌉₊ * wgs ≤ (actual / (2 * wgs) + 1) * wgs :=
    Nat.mul_le_mul_right wgs hle
  nlinarith

theorem global_ok (wgs actual : Nat) (hw : 1 ≤ wgs) (hf : 2 * wgs < 18446744073709551616)
    (ha : actual < 18446744073709551616) :
    global (2 * wgs) wgs actual
      = .ok (⌈(actual : ℚ) / ((2 * wgs : Nat) : ℚ)⌉₊ * wgs) := by
  unfold global
  rw [new_size_ok (2 * wgs) actual (by omega) ha]
  show Except.ok _ = _
  rw [Nat.mod_eq_of_lt (global_no_overflow wgs actual hw hf ha)]

/-- C11. For every `factor ≥ 1` and every input length `actual` (both `std::size_t`),
`new_size(actual)` is the ceiling of `actual / factor`: the least `t` with
`actual ≤ t * factor`, equal to the quotient when `factor` divides `actual` and to the
quotient plus one otherwise; `new_size(actual) * factor` covers `actual` with fewer than
`factor` padding elements. With `factor = 2 * wgs` (line 70), `global(actual)` is
`new_size(actual) * wgs`, a multiple of `wgs` whose number of work-groups is
`new_size(actual)`. -/
theorem new_size_is_ceiling (factor actual : Nat) (hf : 1 ≤ factor)
    (hfs : factor < 18446744073709551616) (ha : actual < 18446744073709551616) :
    ∃ s, new_size factor actual = .ok s
      ∧ s = ⌈(actual : ℚ) / (factor : ℚ)⌉₊
      ∧ (∀ t, s ≤ t ↔ actual ≤ t * factor)
      ∧ (factor ∣ actual → s = actual / factor)
      ∧ (¬ factor ∣ actual → s = actual / factor + 1)
      ∧ actual ≤ s * factor ∧ s * factor - actual < factor
      ∧ ∀ wgs, 1 ≤ wgs → factor = 2 * wgs →
          ∃ g, global factor wgs actual = .ok g
            ∧ g = s * wgs ∧ wgs ∣ g ∧ g / wgs = s := by
  have hval := new_size_value_eq_ceil factor actual hf
  have hiff : ∀ t, ⌈(actual : ℚ) / (factor : ℚ)⌉₊ ≤ t ↔ actual ≤ t * factor :=
    fun t => ceil_div_le_iff actual factor t hf
  have hcover : actual ≤ ⌈(actual : ℚ) / (factor : ℚ)⌉₊ * factor := (hiff _).mp (le_refl _)
  refine ⟨_, new_size_ok factor actual hf ha, rfl, hiff, ?_, ?_, hcover, ?_, ?_⟩
  · intro hd
    have h0 : actual % factor = 0 := by
      obtain ⟨c, hc⟩ := hd
      rw [hc]
      exact Nat.mul_mod_right _ _
    rw [← hval, if_pos h0, Nat.add_zero]
  · intro hd
    rw [← hval, if_neg (fun h0 => hd (Nat.dvd_of_mod_eq_zero h0))]
  · have hq : ⌈(actual : ℚ) / (factor : ℚ)⌉₊ ≤ actual / factor + 1 := by
      rw [← hval]
      split <;> omega
    have hdm := Nat.div_add_mod actual factor
    have hr := Nat.mod_lt actual (show 0 < factor by omega)
    by_cases h0 : actual % factor = 0
    · have hs : ⌈(actual : ℚ) / (factor : ℚ)⌉₊ = actual / factor := by
        rw [← hval, if_pos h0, Nat.add_zero]
      rw [hs]
      have : actual / factor * factor = actual := by nlinarith
      omega
    · have hs : ⌈(actual : ℚ) / (factor : ℚ)⌉₊ = actual / factor + 1 := by
        rw [← hval, if_neg h0]
      rw [hs]
      have : (actual / factor + 1) * factor = actual - actual % factor + factor := by
        have : actual / factor * factor = actual - actual % factor := by
          have := Nat.div_add_mod actual factor
          have h2 : factor * (actual / factor) = actual / factor * factor := Nat.mul_comm _ _
          omega
        rw [Nat.add_mul, this, Nat.one_mul]
      have hpos : 0 < actual % factor := Nat.pos_of_ne_zero h0
      have hle2 := Nat.mod_le actual factor
      omega
  · intro wgs hw hfw
    subst hfw
    refine ⟨_, global_ok wgs actual hw hfs ha, rfl, Nat.dvd_mul_left _ _, ?_⟩
    exact Nat.mul_div_cancel _ (by omega)

/-- Instance of `new_size_is_ceiling`: `factor = 512` (`wgs = 256`) and the input length
`20000000` of the source. -/
theorem new_size_is_ceiling_witness :
    (1 ≤ 512 ∧ 512 < 18446744073709551616 ∧ 20000000 < 18446744073709551616)
    ∧ ∃ s, new_size 512 20000000 = .ok s
      ∧ s = ⌈((20000000 : Nat) : ℚ) / ((512 : Nat) : ℚ)⌉₊
      ∧ (∀ t, s ≤ t ↔ 20000000 ≤ t * 512)
      ∧ (512 ∣ 20000000 → s = 20000000 / 512)
      ∧ (¬ 512 ∣ 20000000 → s = 20000000 / 512 + 1)
      ∧ 20000000 ≤ s * 512 ∧ s * 512 - 20000000 < 512
      ∧ ∀ wgs, 1 ≤ wgs → 512 = 2 * wgs →
          ∃ g, global 512 wgs 20000000 = .ok g
            ∧ g = s * wgs ∧ wgs ∣ g ∧ g / wgs = s :=
  ⟨⟨by decide, by decide, by decide⟩,
   new_size_is_ceiling 512 20000000 (by decide) (by decide) (by decide)⟩

theorem factor_eq (wgs : Nat) (hf : 2 * wgs < 18446744073709551616) : factor wgs = 2 * wgs := by
  unfold factor
  omega

/-- Upper bounds of the length after `j` reductions by `f`. -/
theorem ceil_pow_le_iff (N f j t : Nat) (hf : 1 ≤ f) :
    ⌈(N : ℚ) / ((f ^ j : Nat) : ℚ)⌉₊ ≤ t ↔ N ≤ t * f ^ j :=
  ceil_div_le_iff N (f ^ j) t (Nat.one_le_pow _ _ (by omega))

theorem ceil_pow_zero (N f : Nat) : ⌈(N : ℚ) / ((f ^ 0 : Nat) : ℚ)⌉₊ = N := by
  simp

/-- One more reduction: the ceiling of a ceiling is the ceiling for the next power. -/
theorem ceil_pow_succ (N f j : Nat) (hf : 1 ≤ f) :
    ⌈((⌈(N : ℚ) / ((f ^ j : Nat) : ℚ)⌉₊ : Nat) : ℚ) / (f : ℚ)⌉₊
      = ⌈(N : ℚ) / ((f ^ (j + 1) : Nat) : ℚ)⌉₊ :=
  eq_of_forall_ge_iff fun t => by
    rw [ceil_div_le_iff _ f t hf, ceil_pow_le_iff N f j (t * f) hf,
      ceil_pow_le_iff N f (j + 1) t hf, Nat.pow_succ, Nat.mul_assoc, Nat.mul_comm f (f ^ j)]

theorem ceil_pow_le_self (N f j : Nat) (hf : 1 ≤ f) :
    ⌈(N : ℚ) / ((f ^ j : Nat) : ℚ)⌉₊ ≤ N :=
  ceil_div_le_self N (f ^ j) (Nat.one_le_pow _ _ (by omega))

theorem ceil_pow_pos (N f j : Nat) (hf : 1 ≤ f) (hN : 1 ≤ N) :
    1 ≤ ⌈(N : ℚ) / ((f ^ j : Nat) : ℚ)⌉₊ := by
  by_contra h
  have h0 : ⌈(N : ℚ) / ((f ^ j : Nat) : ℚ)⌉₊ ≤ 0 := by omega
  rw [ceil_pow_le_iff N f j 0 hf] at h0
  omega

/-- The loop condition `curr > 1` holds after `j` passes exactly when `j` is below the
least `p` with `N ≤ f ^ p`. -/
theorem one_lt_ceil_pow_iff (N f j : Nat) (hf : 2 ≤ f) :
    1 < ⌈(N : ℚ) / ((f ^ j : Nat) : ℚ)⌉₊ ↔ j < Nat.clog f N := by
  rw [← not_le, ← not_le, ceil_pow_le_iff N f j 1 (by omega), Nat.one_mul,
    Nat.le_pow_iff_clog_le (by omega)]

theorem ceil_pow_clog (N f : Nat) (hf : 2 ≤ f) (hN : 1 ≤ N) :
    ⌈(N : ℚ) / ((f ^ Nat.clog f N : Nat) : ℚ)⌉₊ = 1 := by
  have h1 := ceil_pow_pos N f (Nat.clog f N) (by omega) hN
  have h2 : ¬ 1 < ⌈(N : ℚ) / ((f ^ Nat.clog f N : Nat) : ℚ)⌉₊ := by
    rw [one_lt_ceil_pow_iff N f _ hf]
    omega
  omega

theorem ceil_pow_succ_lt (N f j : Nat) (hf : 2 ≤ f) (hj : j < Nat.clog f N) :
    ⌈(N : ℚ) / ((f ^ (j + 1) : Nat) : ℚ)⌉₊ < ⌈(N : ℚ) / ((f ^ j : Nat) : ℚ)⌉₊ := by
  have hgt := (one_lt_ceil_pow_iff N f j hf).mpr hj
  have hle : ⌈(N : ℚ) / ((f ^ (j + 1) : Nat) : ℚ)⌉₊
      ≤ ⌈(N : ℚ) / ((f ^ j : Nat) : ℚ)⌉₊ - 1 := by
    rw [← ceil_pow_succ N f j (by omega), ceil_div_le_iff _ f _ (by omega)]
    generalize ⌈(N : ℚ) / ((f ^ j : Nat) : ℚ)⌉₊ = c at hgt
    have : (c - 1) * 2 ≤ (c - 1) * f := Nat.mul_le_mul_left _ hf
    omega
  omega

/-- One iteration of the reduction loop while `curr > 1`. -/
theorem reduce_loop_step (wgs fuel curr : Nat) (passes : List reduce_pass) (hw : 1 ≤ wgs)
    (hf : 2 * wgs < 18446744073709551616) (hc : 1 < curr) (hcu : curr < 4294967296) :
    reduce_loop wgs (fuel + 1) curr passes
      = reduce_loop wgs fuel ⌈(curr : ℚ) / ((2 * wgs : Nat) : ℚ)⌉₊
          (passes ++ [{ global_size := ⌈(curr : ℚ) / ((2 * wgs : Nat) : ℚ)⌉₊ * wgs,
                        local_size := wgs, length := curr }]) := by
  have hle := ceil_div_le_self curr (2 * wgs) (by omega)
  rw [reduce_loop, if_pos hc, factor_eq wgs hf, global_ok wgs curr hw hf (by omega),
    new_size_ok (2 * wgs) curr (by omega) (by omega)]
  show reduce_loop wgs fuel (_ % 4294967296) _ = _
  rw [Nat.mod_eq_of_lt (by omega)]

/-- From the state after `j` passes the loop runs the remaining `d` passes and stops with
`curr = 1`, when given more than `d` units of fuel. -/
theorem reduce_loop_run (wgs N : Nat) (hw : 1 ≤ wgs) (hf : 2 * wgs < 18446744073709551616)
    (hN1 : 1 ≤ N) (hN : N < 4294967296) (d : Nat) :
    ∀ (j fuel : Nat) (passes : List reduce_pass), j + d = Nat.clog (2 * wgs) N → d < fuel →
      reduce_loop wgs fuel ⌈(N : ℚ) / (((2 * wgs) ^ j : Nat) : ℚ)⌉₊ passes
        = some (.ok (1, passes ++ (List.range d).map (fun i =>
            { global_size := ⌈(N : ℚ) / (((2 * wgs) ^ (j + i + 1) : Nat) : ℚ)⌉₊ * wgs,
              local_size := wgs,
              length := ⌈(N : ℚ) / (((2 * wgs) ^ (j + i) : Nat) : ℚ)⌉₊ }))) := by
  induction d with
  | zero =>
    intro j fuel passes hj hfuel
    obtain ⟨fuel, rfl⟩ : ∃ k, fuel = k + 1 := ⟨fuel - 1, by omega⟩
    have hone : ⌈(N : ℚ) / (((2 * wgs) ^ j : Nat) : ℚ)⌉₊ = 1 := by
      have : j = Nat.clog (2 * wgs) N := by omega
      rw [this]
      exact ceil_pow_clog N (2 * wgs) (by omega) hN1
    rw [hone, reduce_loop, if_neg (by omega)]
    simp
  | succ d ih =>
    intro j fuel passes hj hfuel
    obtain ⟨fuel, rfl⟩ : ∃ k, fuel = k + 1 := ⟨fuel - 1, by omega⟩
    have hgt := (one_lt_ceil_pow_iff N (2 * wgs) j (by omega)).mpr (by omega)
    have hle := ceil_pow_le_self N (2 * wgs) j (by omega)
    rw [reduce_loop_step wgs fuel _ passes hw hf hgt (by omega),
      ceil_pow_succ N (2 * wgs) j (by omega), ih (j + 1) fuel _ (by omega) (by omega),
      List.append_assoc, List.range_succ_eq_map, List.map_cons, List.map_map]
    have hfun : ((fun i =>
          ({ global_size := ⌈(N : ℚ) / (((2 * wgs) ^ (j + i + 1) : Nat) : ℚ)⌉₊ * wgs,
             local_size := wgs,
             length := ⌈(N : ℚ) / (((2 * wgs) ^ (j + i) : Nat) : ℚ)⌉₊ } : reduce_pass))
          ∘ Nat.succ)
        = fun i =>
          ({ global_size := ⌈(N : ℚ) / (((2 * wgs) ^ (j + 1 + i + 1) : Nat) : ℚ)⌉₊ * wgs,
             local_size := wgs,
             length := ⌈(N : ℚ) / (((2 * wgs) ^ (j + 1 + i) : Nat) : ℚ)⌉₊ } : reduce_pass) := by
      funext i
      have e1 : j + Nat.succ i = j + 1 + i := by omega
      simp only [Function.comp, e1]
    rw [hfun]
    rfl

/-- With at most as many units of fuel as passes remain, the loop is still running. -/
theorem reduce_loop_running (wgs N : Nat) (hw : 1 ≤ wgs)
    (hf : 2 * wgs < 18446744073709551616) (hN : N < 4294967296) (fuel : Nat) :
    ∀ (j : Nat) (passes : List reduce_pass), j + fuel ≤ Nat.clog (2 * wgs) N →
      reduce_loop wgs fuel ⌈(N : ℚ) / (((2 * wgs) ^ j : Nat) : ℚ)⌉₊ passes = none := by
  induction fuel with
  | zero =>
    intro j passes _
    rfl
  | succ fuel ih =>
    intro j passes hj
    have hgt := (one_lt_ceil_pow_iff N (2 * wgs) j (by omega)).mpr (by omega)
    have hle := ceil_pow_le_self N (2 * wgs) j (by omega)
    rw [reduce_loop_step wgs fuel _ passes hw hf hgt (by omega),
      ceil_pow_succ N (2 * wgs) j (by omega)]
    exact ih (j + 1) _ (by omega)

/-- C12, counterexample. For `wgs = 1` (`factor = 2`) and the input length `N = 2^32`, the
conversion to `cl_uint` leaves `curr = 0`: the loop ends at once with `curr = 0` and no
pass, although `2^p ≥ N` first holds for `p = 32`. -/
theorem reduce_loop_truncates_length :
    (1 ≤ 1 ∧ 1 ≤ 4294967296)
    ∧ main_reduce 1 4294967296 1 = some (.ok (0, []))
    ∧ (4294967296 ≤ (2 * 1) ^ 32 ∧ ∀ q, q < 32 → (2 * 1) ^ q < 4294967296) := by
  refine ⟨⟨by decide, by decide⟩, rfl, by norm_num, fun q hq => ?_⟩
  have h1 : (2 * 1) ^ q < (2 * 1) ^ 32 := Nat.pow_lt_pow_right (by norm_num) hq
  norm_num at h1 ⊢
  exact h1

/-- C12, amended. For every work-group size `wgs ≥ 1` with `factor = 2 * wgs` a
`std::size_t`, and every input length `N` with `1 ≤ N < 2^32` (the range of the `cl_uint`
`curr`): with `p` the least natural number such that `factor ^ p ≥ N`, the loop
`while (curr > 1)` terminates with `curr = 1` after exactly `p` passes (it is still running
while at most `p` loop conditions have been evaluated); pass `j + 1` receives the length
`⌈N / factor ^ j⌉`, the value of `curr` after `j` passes, and `curr` strictly decreases at
every pass. -/
theorem reduce_loop_pass_count (wgs N : Nat) (hw : 1 ≤ wgs)
    (hf : 2 * wgs < 18446744073709551616) (hN1 : 1 ≤ N) (hN : N < 4294967296) :
    ∃ p, (N ≤ (2 * wgs) ^ p ∧ ∀ q, q < p → (2 * wgs) ^ q < N)
      ∧ (∀ fuel, p < fuel →
          main_reduce wgs N fuel
            = some (.ok (1, (List.range p).map (fun j =>
                { global_size := ⌈(N : ℚ) / (((2 * wgs) ^ (j + 1) : Nat) : ℚ)⌉₊ * wgs,
                  local_size := wgs,
                  length := ⌈(N : ℚ) / (((2 * wgs) ^ j : Nat) : ℚ)⌉₊ }))))
      ∧ (∀ fuel, fuel ≤ p → main_reduce wgs N fuel = none)
      ∧ ⌈(N : ℚ) / (((2 * wgs) ^ 0 : Nat) : ℚ)⌉₊ = N
      ∧ ⌈(N : ℚ) / (((2 * wgs) ^ p : Nat) : ℚ)⌉₊ = 1
      ∧ ∀ j, j < p →
          ⌈(N : ℚ) / (((2 * wgs) ^ (j + 1) : Nat) : ℚ)⌉₊
            < ⌈(N : ℚ) / (((2 * wgs) ^ j : Nat) : ℚ)⌉₊ := by
  have h2 : 2 ≤ 2 * wgs := by omega
  have hstart : N % 4294967296 = ⌈(N : ℚ) / (((2 * wgs) ^ 0 : Nat) : ℚ)⌉₊ := by
    rw [ceil_pow_zero, Nat.mod_eq_of_lt hN]
  refine ⟨Nat.clog (2 * wgs) N, ⟨?_, ?_⟩, ?_, ?_, ceil_pow_zero N (2 * wgs),
    ceil_pow_clog N (2 * wgs) h2 hN1, fun j hj => ceil_pow_succ_lt N (2 * wgs) j h2 hj⟩
  · exact (Nat.le_pow_iff_clog_le (by omega)).mpr (le_refl _)
  · intro q hq
    by_contra hnot
    have := (Nat.le_pow_iff_clog_le (show 1 < 2 * wgs by omega)).mp (not_lt.mp hnot)
    omega
  · intro fuel hfuel
    unfold main_reduce
    rw [hstart, reduce_loop_run wgs N hw hf hN1 hN (Nat.clog (2 * wgs) N) 0 fuel []
      (by omega) hfuel]
    simp
  · intro fuel hfuel
    unfold main_reduce
    rw [hstart]
    exact reduce_loop_running wgs N hw hf hN fuel 0 [] (by omega)

/-- Instance of `reduce_loop_pass_count`: `wgs = 256` and the input length `20000000` of
the source. -/
theorem reduce_loop_pass_count_witness :
    (1 ≤ 256 ∧ 2 * 256 < 18446744073709551616 ∧ 1 ≤ 20000000 ∧ 20000000 < 4294967296)
    ∧ ∃ p, (20000000 ≤ (2 * 256) ^ p ∧ ∀ q, q < p → (2 * 256) ^ q < 20000000)
      ∧ (∀ fuel, p < fuel →
          main_reduce 256 20000000 fuel
            = some (.ok (1, (List.range p).map (fun j =>
                { global_size :=
                    ⌈((20000000 : Nat) : ℚ) / (((2 * 256) ^ (j + 1) : Nat) : ℚ)⌉₊ * 256,
                  local_size := 256,
                  length := ⌈((20000000 : Nat) : ℚ) / (((2 * 256) ^ j : Nat) : ℚ)⌉₊ }))))
      ∧ (∀ fuel, fuel ≤ p → main_reduce 256 20000000 fuel = none)
      ∧ ⌈((20000000 : Nat) : ℚ) / (((2 * 256) ^ 0 : Nat) : ℚ)⌉₊ = 20000000
      ∧ ⌈((20000000 : Nat) : ℚ) / (((2 * 256) ^ p : Nat) : ℚ)⌉₊ = 1
      ∧ ∀ j, j < p →
          ⌈((20000000 : Nat) : ℚ) / (((2 * 256) ^ (j + 1) : Nat) : ℚ)⌉₊
            < ⌈((20000000 : Nat) : ℚ) / (((2 * 256) ^ j : Nat) : ℚ)⌉₊ :=
  ⟨⟨by decide, by decide, by decide, by decide⟩,
   reduce_loop_pass_count 256 20000000 (by decide) (by decide) (by decide) (by decide)⟩

end scalar_prod
